import Mathlib

/-!
Verification development for the LUKE_DPR bi-encoder component
(src/dpr/models/biencoder.py).

The batch-assembly code (`BiEncoder.create_biencoder_input` together with
`_select_span_with_token`) is embedded as computable Lean functions over a
shallow model of the data types involved.  The external `Tensorizer`
collaborator (dpr.utils.data_utils, not part of the sources) is modelled as a
record of pure functions; the stateful random sources (`random.shuffle`,
`np.random.choice`, the module-level `rnd` generator) are modelled by an
explicit oracle record whose components stand for the values the generators
would have produced, so theorems quantifying over all oracles cover every
possible random outcome.  Python's in-place mutation of each sample's
negative pools by `random.shuffle` is modelled by state passing:
`create_biencoder_input` additionally returns the updated sample list.

The real-valued scoring / loss code (`dot_product_scores`, `cosine_scores`,
`BiEncoderNllLoss.calc`, `BiEncoderEntLoss.get_scores`) is embedded over ℝ
in a second, noncomputable part of the file.
-/

namespace LukeDpr

/-- One passage of a `BiEncoderSample` (dpr.data.biencoder_data.BiEncoderPassage):
raw text, optional title, and opaque entity annotations. -/
structure BiEncoderPassage where
  text : String
  title : Option String
  entities : List Nat
  entity_spans : List (Nat × Nat)
deriving DecidableEq, Repr

/-- The query of a sample: text plus opaque entity annotations. -/
structure BiEncoderQuery where
  text : String
  entities : List Nat
  entity_spans : List (Nat × Nat)
deriving DecidableEq, Repr

/-- One training sample: query, positive pool, other-negative pool,
hard-negative pool (dpr.data.biencoder_data.BiEncoderSample). -/
structure BiEncoderSample where
  query : BiEncoderQuery
  positive_passages : List BiEncoderPassage
  negative_passages : List BiEncoderPassage
  hard_negative_passages : List BiEncoderPassage
deriving DecidableEq, Repr

/-- Result of `Tensorizer.text_to_tensor` in this repository: a triple of
token ids, entity ids and per-mention entity position rows. -/
structure TensorizedText where
  token_ids : List Nat
  entity_ids : List Nat
  entity_position_ids : List (List Nat)
deriving DecidableEq, Repr

/-- The external Tensorizer collaborator (dpr.utils.data_utils, not in the
sources), modelled as a record of pure functions.  `text_to_tensor` takes
text, optional title, entities, entity spans, and the `apply_max_len` flag. -/
structure Tensorizer where
  text_to_tensor : String → Option String → List Nat → List (Nat × Nat) → Bool → TensorizedText
  get_token_id : String → Nat
  pad_id : Nat
  cls_token_id : Nat
  sep_token_id : Nat
  max_length : Nat
  max_mention_length : Option Nat

/-- Oracle for all random sources consulted by `create_biencoder_input`:
`choose_positive i n` models `np.random.choice(n)` for sample `i`,
`shuffle_neg i` / `shuffle_hard i` model the effect of `random.shuffle` on
sample `i`'s pools, and `span_rnd_shift i` models the integer jitter
`int((rnd.random() - 0.5) * left_shit / 2)` drawn inside
`_select_span_with_token` for sample `i`. -/
structure RandomOracle where
  choose_positive : Nat → Nat → Nat
  shuffle_neg : Nat → List BiEncoderPassage → List BiEncoderPassage
  shuffle_hard : Nat → List BiEncoderPassage → List BiEncoderPassage
  span_rnd_shift : Nat → Int

/-- The (non-sample) arguments of `BiEncoder.create_biencoder_input`. -/
structure BatchConfig where
  tz : Tensorizer
  insert_title : Bool
  num_hard_negatives : Nat
  num_other_negatives : Nat
  shuffle : Bool
  shuffle_positives : Bool
  hard_neg_fallback : Bool
  query_token : Option String

/-- Overwrite the last element of a list (Python `seq[-1] = v`). -/
def setLast (v : Nat) : List Nat → List Nat
  | [] => []
  | [_] => [v]
  | x :: y :: xs => x :: setLast v (y :: xs)

/-- Modelled from the spec: `_pad_to_len` (dpr.models.reader, not in the
sources) right-pads the sequence with the pad id up to `maxLen`, or
truncates it to its first `maxLen` tokens. -/
def padToLen (padId maxLen : Nat) (xs : List Nat) : List Nat :=
  if maxLen < xs.length then xs.take maxLen
  else xs ++ List.replicate (maxLen - xs.length) padId

/-- Modelled from the spec: the Tensorizer's `apply_max_len` behaviour
(dpr.utils.data_utils, not in the sources) — the token sequence is
length-truncated to `maxLen` with the final token forced to the separator
id, or right-padded with the pad id when shorter. -/
def applyMaxLen (maxLen sepId padId : Nat) (xs : List Nat) : List Nat :=
  if maxLen ≤ xs.length then setLast sepId (xs.take maxLen)
  else xs ++ List.replicate (maxLen - xs.length) padId

/-- Python slice `xs[s:]` for a possibly negative integer start
(a negative start counts from the end, clamped at the front). -/
def pyTailFrom (xs : List Nat) (s : Int) : List Nat :=
  if 0 ≤ s then xs.drop s.toNat else xs.drop ((xs.length : Int) + s).toNat

/-- Index of the first occurrence of `v` (the `(t == id).nonzero()[0, 0]`
computation of `_select_span_with_token`). -/
def firstIdx (v : Nat) : List Nat → Option Nat
  | [] => none
  | x :: xs => if x = v then some 0 else (firstIdx v xs).map (· + 1)

/-- Token tensor of `text` produced by the tensorizer with
`apply_max_len=True` and no title/entity arguments. -/
def truncTok (tz : Tensorizer) (text : String) : List Nat :=
  (tz.text_to_tensor text none [] [] true).token_ids

/-- Token tensor of `text` produced with `apply_max_len=False`. -/
def fullTok (tz : Tensorizer) (text : String) : List Nat :=
  (tz.text_to_tensor text none [] [] false).token_ids

/-- Embedding of `_select_span_with_token` (biencoder.py lines 439-470).
`rndShift` stands for the value of `int((rnd.random() - 0.5) * left_shit / 2)`.
The failed `assert` and the raised `RuntimeError` are modelled as
`Except.error` values carrying the corresponding message. -/
def selectSpanWithToken (tz : Tensorizer) (rndShift : Int) (text : String)
    (token_str : String) : Except String (List Nat) :=
  let id := tz.get_token_id token_str
  let query_tensor := truncTok tz text
  if id ∈ query_tensor then .ok query_tensor
  else
    let query_tensor_full := fullTok tz text
    match firstIdx id query_tensor_full with
    | some start_pos =>
        -- left_shit = int(max_length / 2); left_shit += rnd_shift
        let left_shit : Int := (tz.max_length / 2 : Nat) + rndShift
        let sliced := pyTailFrom query_tensor_full ((start_pos : Int) - left_shit)
        let withCls := if sliced.head? = some tz.cls_token_id then sliced
                       else tz.cls_token_id :: sliced
        let padded := setLast tz.sep_token_id (padToLen tz.pad_id tz.max_length withCls)
        if id ∈ padded then .ok padded
        else .error ("assert failed: query_tensor=" ++ toString padded)
    | none =>
        .error ("[START_ENT] toke not found for Entity Linking sample query=" ++ text)

/-- The other-negative pool after the (possible) shuffle of line 234. -/
def shuffledNegs (cfg : BatchConfig) (o : RandomOracle) (i : Nat)
    (s : BiEncoderSample) : List BiEncoderPassage :=
  if cfg.shuffle then o.shuffle_neg i s.negative_passages else s.negative_passages

/-- The hard-negative pool after the (possible) shuffle of line 235. -/
def shuffledHards (cfg : BatchConfig) (o : RandomOracle) (i : Nat)
    (s : BiEncoderSample) : List BiEncoderPassage :=
  if cfg.shuffle then o.shuffle_hard i s.hard_negative_passages else s.hard_negative_passages

/-- The hard-negative pool after the fallback of lines 237-238: when
`hard_neg_fallback` holds and the (shuffled) hard pool is empty, backfill
from the first `num_hard_negatives` entries of the (shuffled) other pool. -/
def fallbackHards (cfg : BatchConfig) (o : RandomOracle) (i : Nat)
    (s : BiEncoderSample) : List BiEncoderPassage :=
  let hard_neg_ctxs := shuffledHards cfg o i s
  if cfg.hard_neg_fallback ∧ hard_neg_ctxs.length = 0 then
    (shuffledNegs cfg o i s).take cfg.num_hard_negatives
  else hard_neg_ctxs

/-- The truncated other-negative slice (line 240). -/
def sampleNegSlice (cfg : BatchConfig) (o : RandomOracle) (i : Nat)
    (s : BiEncoderSample) : List BiEncoderPassage :=
  (shuffledNegs cfg o i s).take cfg.num_other_negatives

/-- The truncated hard-negative slice (line 241). -/
def sampleHardSlice (cfg : BatchConfig) (o : RandomOracle) (i : Nat)
    (s : BiEncoderSample) : List BiEncoderPassage :=
  (fallbackHards cfg o i s).take cfg.num_hard_negatives

/-- Number of context rows sample `i` appends to the flattened batch:
the positive plus the two truncated negative slices (line 243). -/
def sampleCtxCount (cfg : BatchConfig) (o : RandomOracle) (i : Nat)
    (s : BiEncoderSample) : Nat :=
  1 + (sampleNegSlice cfg o i s).length + (sampleHardSlice cfg o i s).length

/-- The `title=ctx.title if (insert_title and ctx.title) else None`
argument of line 256 (an empty string is falsy in Python). -/
def titleArg (insert : Bool) (c : BiEncoderPassage) : Option String :=
  if insert then
    match c.title with
    | some t => if t = "" then none else some t
    | none => none
  else none

/-- Tensorization of one context passage (lines 253-259). -/
def tensorizeCtx (tz : Tensorizer) (insert : Bool) (c : BiEncoderPassage) : TensorizedText :=
  tz.text_to_tensor c.text (titleArg insert c) c.entities c.entity_spans true

/-- The running per-batch accumulators of `create_biencoder_input`
(lines 209-216). -/
structure BatchState where
  question_tensors : List (List Nat)
  question_entity_tensors : List (List Nat)
  question_entity_position_ids : List (List (List Nat))
  ctx_tensors : List (List Nat)
  ctx_entity_tensors : List (List Nat)
  ctxs_entity_position_ids : List (List (List Nat))
  positive_ctx_indices : List Nat
  hard_neg_ctx_indices : List (List Nat)
deriving DecidableEq, Repr

def emptyBatchState : BatchState := ⟨[], [], [], [], [], [], [], []⟩

/-- Positive-passage selection (lines 222-226).  `positive_passages[0]` on
an empty pool (and `np.random.choice` out of range) raises, modelled as an
error. -/
def selectPositive (cfg : BatchConfig) (o : RandomOracle) (i : Nat)
    (s : BiEncoderSample) : Except String BiEncoderPassage :=
  if cfg.shuffle && cfg.shuffle_positives then
    match s.positive_passages.get? (o.choose_positive i s.positive_passages.length) with
    | some p => .ok p
    | none => .error "positive passage index out of range"
  else
    match s.positive_passages.head? with
    | some p => .ok p
    | none => .error "sample has no positive passages"

/-- Appending one sample's context rows and index bookkeeping
(lines 243-278).  Note the recorded hard-negative index window
`hard_negatives_start_idx = 1`, `hard_negatives_end_idx = 1 + len(hard_neg_ctxs)`
of lines 244-245, turned into `range(current + 1, current + 1 + len(hard))`
at lines 270-278. -/
def appendCtxs (cfg : BatchConfig) (st : BatchState) (positive_ctx : BiEncoderPassage)
    (negs hards : List BiEncoderPassage) : BatchState :=
  let all_ctxs := [positive_ctx] ++ negs ++ hards
  let tens := all_ctxs.map (tensorizeCtx cfg.tz cfg.insert_title)
  let current_ctxs_len := st.ctx_tensors.length
  { st with
    ctx_tensors := st.ctx_tensors ++ tens.map (·.token_ids)
    ctx_entity_tensors := st.ctx_entity_tensors ++ tens.map (·.entity_ids)
    ctxs_entity_position_ids := st.ctxs_entity_position_ids ++ tens.map (·.entity_position_ids)
    positive_ctx_indices := st.positive_ctx_indices ++ [current_ctxs_len]
    hard_neg_ctx_indices := st.hard_neg_ctx_indices ++
      [List.range' (current_ctxs_len + 1) hards.length] }

/-- The query branch of lines 280-294.  In the `[START_ENT]` branch only the
question token tensor is appended (lines 283-284); in the other branches the
entity tensors are appended as well. -/
def appendQuestion (cfg : BatchConfig) (o : RandomOracle) (i : Nat)
    (s : BiEncoderSample) (st : BatchState) : Except String BatchState :=
  match cfg.query_token with
  | some qt =>
      if qt = "[START_ENT]" then do
        let span ← selectSpanWithToken cfg.tz (o.span_rnd_shift i) s.query.text qt
        pure { st with question_tensors := st.question_tensors ++ [span] }
      else
        let t := cfg.tz.text_to_tensor (qt ++ " " ++ s.query.text) none
          s.query.entities s.query.entity_spans true
        pure { st with
          question_tensors := st.question_tensors ++ [t.token_ids]
          question_entity_tensors := st.question_entity_tensors ++ [t.entity_ids]
          question_entity_position_ids := st.question_entity_position_ids ++ [t.entity_position_ids] }
  | none =>
      let t := cfg.tz.text_to_tensor s.query.text none
        s.query.entities s.query.entity_spans true
      pure { st with
        question_tensors := st.question_tensors ++ [t.token_ids]
        question_entity_tensors := st.question_entity_tensors ++ [t.entity_ids]
        question_entity_position_ids := st.question_entity_position_ids ++ [t.entity_position_ids] }

/-- The sample object after the call: `random.shuffle` mutates the sample's
own negative lists in place (lines 233-235); nothing else is written back. -/
def updatedSample (cfg : BatchConfig) (o : RandomOracle) (i : Nat)
    (s : BiEncoderSample) : BiEncoderSample :=
  { s with
    negative_passages := shuffledNegs cfg o i s
    hard_negative_passages := shuffledHards cfg o i s }

/-- One iteration of the `for sample in samples` loop (lines 218-294). -/
def processSample (cfg : BatchConfig) (o : RandomOracle) (i : Nat)
    (st : BatchState) (s : BiEncoderSample) :
    Except String (BatchState × BiEncoderSample) := do
  let positive_ctx ← selectPositive cfg o i s
  let st1 := appendCtxs cfg st positive_ctx (sampleNegSlice cfg o i s) (sampleHardSlice cfg o i s)
  let st2 ← appendQuestion cfg o i s st1
  pure (st2, updatedSample cfg o i s)

/-- The whole sample loop, threading the batch state and collecting the
updated (mutated) samples. -/
def processSamples (cfg : BatchConfig) (o : RandomOracle) :
    Nat → BatchState → List BiEncoderSample →
    Except String (BatchState × List BiEncoderSample)
  | _, st, [] => .ok (st, [])
  | i, st, s :: rest => do
    let (st1, s1) ← processSample cfg o i st s
    let (st2, rest1) ← processSamples cfg o (i + 1) st1 rest
    .ok (st2, s1 :: rest1)

/-- `torch.cat([t.view(1, -1) for t in xs], dim=0)`: fails on an empty list
and on rows of unequal width; otherwise stacks the rows. -/
def allSameLength : List (List Nat) → Bool
  | [] => true
  | x :: rest => rest.all (fun y => y.length = x.length)

def catEmptyMsg : String := "torch.cat(): expected a non-empty list of Tensors"

def catRowsNat (xs : List (List Nat)) : Except String (List (List Nat)) :=
  if xs.isEmpty then .error catEmptyMsg
  else if allSameLength xs then .ok xs
  else .error "torch.cat(): sizes of tensors must match"

/-- `torch.cat` over the entity-position rows (lines 303-307); only the
non-emptiness failure is modelled, the `view` reshape is shape-only. -/
def catNonEmpty (xs : List (List (List Nat))) : Except String (List (List (List Nat))) :=
  if xs.isEmpty then .error catEmptyMsg else .ok xs

/-- `torch.zeros_like` on a stacked tensor, row by row. -/
def zerosLike (xs : List (List Nat)) : List (List Nat) :=
  xs.map (fun r => r.map (fun _ => 0))

/-- The `BiEncoderBatch` named tuple (lines 29-46), with stacked tensors
kept as lists of rows. -/
structure BiEncoderBatchOut where
  question_ids : List (List Nat)
  question_segments : List (List Nat)
  question_entity_ids : List (List Nat)
  question_entity_position_ids : List (List (List Nat))
  question_entity_segments : List (List Nat)
  context_ids : List (List Nat)
  ctx_segments : List (List Nat)
  ctx_entity_ids : List (List Nat)
  ctx_entity_position_ids : List (List (List Nat))
  ctx_entity_segments : List (List Nat)
  is_positive : List Nat
  hard_negatives : List (List Nat)
  encoder_type : String
deriving DecidableEq, Repr

/-- The stacking epilogue of `create_biencoder_input` (lines 296-328), in
the source's `torch.cat` order: context ids, context entity ids, question
ids, question entity ids, then the entity-position tensors. -/
def assembleBatch (st : BatchState) : Except String BiEncoderBatchOut := do
  let ctxs_tensor ← catRowsNat st.ctx_tensors
  let ctxs_entity_tensor ← catRowsNat st.ctx_entity_tensors
  let questions_tensor ← catRowsNat st.question_tensors
  let questions_entity_tensor ← catRowsNat st.question_entity_tensors
  let q_ent_pos ← catNonEmpty st.question_entity_position_ids
  let ctx_ent_pos ← catNonEmpty st.ctxs_entity_position_ids
  .ok {
    question_ids := questions_tensor
    question_segments := zerosLike questions_tensor
    question_entity_ids := questions_entity_tensor
    question_entity_position_ids := q_ent_pos
    question_entity_segments := zerosLike questions_entity_tensor
    context_ids := ctxs_tensor
    ctx_segments := zerosLike ctxs_tensor
    ctx_entity_ids := ctxs_entity_tensor
    ctx_entity_position_ids := ctx_ent_pos
    ctx_entity_segments := zerosLike ctxs_entity_tensor
    is_positive := st.positive_ctx_indices
    hard_negatives := st.hard_neg_ctx_indices
    encoder_type := "question" }

/-- Embedding of `BiEncoder.create_biencoder_input` (lines 186-328). -/
def create_biencoder_input (cfg : BatchConfig) (o : RandomOracle)
    (samples : List BiEncoderSample) :
    Except String (BiEncoderBatchOut × List BiEncoderSample) := do
  let (st, updated) ← processSamples cfg o 0 emptyBatchState samples
  let b ← assembleBatch st
  .ok (b, updated)

/-- Per-sample context-row counts, indexed from `i`. -/
def ctxCounts (cfg : BatchConfig) (o : RandomOracle) : Nat → List BiEncoderSample → List Nat
  | _, [] => []
  | i, s :: rest => sampleCtxCount cfg o i s :: ctxCounts cfg o (i + 1) rest

/-- Partial sums: element `i` of the result is `acc` plus the sum of the
first `i` inputs. -/
def prefixSums (acc : Nat) : List Nat → List Nat
  | [] => []
  | x :: xs => acc :: prefixSums (acc + x) xs

/-- The updated sample list the loop leaves behind (the in-place shuffles). -/
def updatedSamples (cfg : BatchConfig) (o : RandomOracle) :
    Nat → List BiEncoderSample → List BiEncoderSample
  | _, [] => []
  | i, s :: rest => updatedSample cfg o i s :: updatedSamples cfg o (i + 1) rest

/-!  The real-valued scoring and loss functions, embedded over ℝ. -/

noncomputable section

/-- Embedding of `dot_product_scores` (lines 51-60):
`torch.matmul(q_vectors, torch.transpose(ctx_vectors, 0, 1))`. -/
def dot_product_scores {n1 n2 d : ℕ} (q_vectors : Matrix (Fin n1) (Fin d) ℝ)
    (ctx_vectors : Matrix (Fin n2) (Fin d) ℝ) : Matrix (Fin n1) (Fin n2) ℝ :=
  q_vectors * ctx_vectors.transpose

/-- Euclidean norm of a row vector, as used by `F.cosine_similarity`. -/
def l2norm {d : ℕ} (x : Fin d → ℝ) : ℝ := Real.sqrt (∑ j, x j ^ 2)

/-- The epsilon clamp of `F.cosine_similarity` (default `eps=1e-8`). -/
def torchCosEps : ℝ := 1 / 100000000

/-- Row-pair cosine similarity, the elementwise semantics of
`F.cosine_similarity(x, y, dim=1)`. -/
def cosineSimilarityRow {d : ℕ} (x y : Fin d → ℝ) : ℝ :=
  (∑ j, x j * y j) / (max (l2norm x) torchCosEps * max (l2norm y) torchCosEps)

/-- Embedding of `cosine_scores` (lines 63-65):
`F.cosine_similarity(q_vector, ctx_vectors, dim=1)`.  With two 2-D inputs
this broadcasts the rows pairwise (so the row counts must agree, which the
type reflects) and returns a one-dimensional tensor of length `n` — one
cosine per corresponding row pair. -/
def cosine_scores {n d : ℕ} (q_vector : Matrix (Fin n) (Fin d) ℝ)
    (ctx_vectors : Matrix (Fin n) (Fin d) ℝ) : Fin n → ℝ :=
  fun i => cosineSimilarityRow (q_vector i) (ctx_vectors i)

/-- Definition following the spec's words, for comparison with
`cosine_scores`: the full `n_queries × n_passages` matrix of row-pair
cosine similarities. -/
def cosineMatrixSpec {n1 n2 d : ℕ} (q : Matrix (Fin n1) (Fin d) ℝ)
    (c : Matrix (Fin n2) (Fin d) ℝ) : Matrix (Fin n1) (Fin n2) ℝ :=
  Matrix.of fun i j => cosineSimilarityRow (q i) (c j)

/-- Per-row `F.log_softmax(scores, dim=1)`. -/
def logSoftmax {m : ℕ} (row : Fin m → ℝ) : Fin m → ℝ :=
  fun j => row j - Real.log (∑ k, Real.exp (row k))

/-- `F.nll_loss(input, target, reduction="mean")` on log-probabilities. -/
def nllLossMean {n m : ℕ} (input : Fin n → Fin m → ℝ) (target : Fin n → Fin m) : ℝ :=
  (∑ i, -(input i (target i))) / n

/-- Index returned by `torch.max(t, 1)` for one row: the first index
attaining the maximum (`List.argmax` keeps the earliest maximum). -/
def rowArgmax {m : ℕ} (f : Fin m → ℝ) : Option (Fin m) :=
  (List.finRange m).argmax f

/-- Embedding of `BiEncoderNllLoss.calc` (lines 341-378); `calc` is a Lean
keyword, hence the name.  The entity-vector arguments are accepted and
ignored exactly as in the source; `hard_negative_idx_per_question` is
unused by the source and omitted.  `scores.view(q_num, -1)` is the identity
on an `n × m` matrix and is not represented.  The final `if loss_scale:`
is Python truthiness, so a zero scale is ignored. -/
def BiEncoderNllLoss.calcNll {n m d e : ℕ}
    (q_vectors : Matrix (Fin n) (Fin d) ℝ) (ctx_vectors : Matrix (Fin m) (Fin d) ℝ)
    (q_ent_vectors : Matrix (Fin n) (Fin e) ℝ) (ctx_ent_vectors : Matrix (Fin m) (Fin e) ℝ)
    (positive_idx_per_question : Fin n → Fin m)
    (loss_scale : Option ℝ) : ℝ × ℕ :=
  let _ := q_ent_vectors
  let _ := ctx_ent_vectors
  let scores := dot_product_scores q_vectors ctx_vectors
  let softmax_scores := fun i => logSoftmax (scores i)
  let loss := nllLossMean softmax_scores positive_idx_per_question
  let correct_predictions_count :=
    (Finset.univ.filter
      (fun i => rowArgmax (softmax_scores i) = some (positive_idx_per_question i))).card
  (match loss_scale with
   | some s => if s = 0 then loss else loss * s
   | none => loss,
   correct_predictions_count)

/-- Embedding of `BiEncoderEntLoss.get_scores` (lines 429-432): the sum of
the two dot-product score matrices (`f = dot_product_scores`). -/
def BiEncoderEntLoss.get_scores {n1 n2 d e : ℕ}
    (q_vector : Matrix (Fin n1) (Fin d) ℝ) (ctx_vectors : Matrix (Fin n2) (Fin d) ℝ)
    (q_ent_vector : Matrix (Fin n1) (Fin e) ℝ) (ctx_ent_vectors : Matrix (Fin n2) (Fin e) ℝ) :
    Matrix (Fin n1) (Fin n2) ℝ :=
  dot_product_scores q_vector ctx_vectors + dot_product_scores q_ent_vector ctx_ent_vectors

end

/-!  Concrete fixtures used by the closed evaluation and witness theorems. -/

/-- Oracle standing for the trivial random draws (used where the theorems
show the oracle is never consulted). -/
def idOracle : RandomOracle :=
  ⟨fun _ _ => 0, fun _ l => l, fun _ l => l, fun _ => 0⟩

/-- Oracle whose shuffles reverse the pools (a genuine permutation). -/
def revOracle : RandomOracle :=
  ⟨fun _ _ => 0, fun _ l => l.reverse, fun _ l => l.reverse, fun _ => 0⟩

def mkPassage (t : String) : BiEncoderPassage := ⟨t, none, [], []⟩

/-- A tiny tensorizer mapping every text to the single token holding its
length; all rows have width one, so stacking succeeds. -/
def lenTz : Tensorizer where
  text_to_tensor := fun text _ _ _ _ => ⟨[text.length], [0], [[0]]⟩
  get_token_id := fun _ => 500
  pad_id := 2
  cls_token_id := 0
  sep_token_id := 1
  max_length := 16
  max_mention_length := some 1

def cfg1 : BatchConfig :=
  ⟨lenTz, false, 1, 1, false, false, true, none⟩

def sample1 : BiEncoderSample :=
  ⟨⟨"q", [], []⟩, [mkPassage "a"], [mkPassage "bb"], [mkPassage "ccc"]⟩

def sample3a : BiEncoderSample :=
  ⟨⟨"q", [], []⟩, [mkPassage "a"], [mkPassage "dd"], [mkPassage "eee"]⟩

def sample3b : BiEncoderSample :=
  ⟨⟨"qq", [], []⟩, [mkPassage "ffff"], [], []⟩

def cfg10 : BatchConfig :=
  ⟨lenTz, false, 1, 1, true, false, true, none⟩

def sample10 : BiEncoderSample :=
  ⟨⟨"q", [], []⟩, [mkPassage "a"], [mkPassage "bb", mkPassage "ccc"],
    [mkPassage "dddd", mkPassage "eeeee"]⟩

/-- Full (untruncated) token tensor used by the span-selection fixtures:
twenty tokens with the marker id 999 at index 15. -/
def spanFullList : List Nat :=
  [100, 101, 102, 103, 104, 105, 106, 107, 108, 109, 110, 111, 112, 113, 114,
   999, 116, 117, 118, 119]

/-- Span-selection fixture tensorizer: `apply_max_len=True` really is the
length-truncation of the full tensor, so the marker survives only in the
untruncated tensor. -/
def spanTz : Tensorizer where
  text_to_tensor := fun _ _ _ _ applyMax =>
    if applyMax then ⟨applyMaxLen 16 1 2 spanFullList, [7], [[8]]⟩
    else ⟨spanFullList, [7], [[8]]⟩
  get_token_id := fun _ => 999
  pad_id := 2
  cls_token_id := 0
  sep_token_id := 1
  max_length := 16
  max_mention_length := some 1

/-- Like `spanTz` but the marker id occurs nowhere in the tensors. -/
def noMarkerTz : Tensorizer where
  text_to_tensor := fun _ _ _ _ applyMax =>
    if applyMax then
      ⟨applyMaxLen 16 1 2 [100, 101, 102, 103, 104, 105, 106, 107], [7], [[8]]⟩
    else ⟨[100, 101, 102, 103, 104, 105, 106, 107], [7], [[8]]⟩
  get_token_id := fun _ => 999
  pad_id := 2
  cls_token_id := 0
  sep_token_id := 1
  max_length := 16
  max_mention_length := some 1

def cfg5 : BatchConfig :=
  ⟨spanTz, false, 1, 1, false, false, true, some "[START_ENT]"⟩

def oracle5a : RandomOracle := ⟨fun _ _ => 0, fun _ l => l, fun _ l => l, fun _ => 0⟩

def oracle5b : RandomOracle := ⟨fun _ _ => 0, fun _ l => l, fun _ l => l, fun _ => 1⟩

def sample5 : BiEncoderSample :=
  ⟨⟨"q", [], []⟩, [mkPassage "a"], [], []⟩

def sample4 : BiEncoderSample :=
  ⟨⟨"q", [], []⟩, [mkPassage "a"],
    [mkPassage "n1", mkPassage "n2", mkPassage "n3"], []⟩

def cfg4 : BatchConfig :=
  ⟨lenTz, false, 2, 1, true, false, true, none⟩

/-- Forget the question token tensors of a batch state (used to express
that two states agree everywhere else). -/
def eraseQ (st : BatchState) : BatchState := { st with question_tensors := [] }

/-- Two batch states that agree on every field except possibly the question
token tensors, whose rows still have pairwise equal widths. -/
def qrel (a b : BatchState) : Prop :=
  eraseQ a = eraseQ b ∧
    a.question_tensors.map List.length = b.question_tensors.map List.length

/-- Expected batch for `cfg1` over `[sample3a, sample3b]`. -/
def batchC3 : BiEncoderBatchOut where
  question_ids := [[1], [2]]
  question_segments := [[0], [0]]
  question_entity_ids := [[0], [0]]
  question_entity_position_ids := [[[0]], [[0]]]
  question_entity_segments := [[0], [0]]
  context_ids := [[1], [2], [3], [4]]
  ctx_segments := [[0], [0], [0], [0]]
  ctx_entity_ids := [[0], [0], [0], [0]]
  ctx_entity_position_ids := [[[0]], [[0]], [[0]], [[0]]]
  ctx_entity_segments := [[0], [0], [0], [0]]
  is_positive := [0, 3]
  hard_negatives := [[1], []]
  encoder_type := "question"

/-- Expected batch for `cfg10` with the reversing oracle over `[sample10]`. -/
def batchC10 : BiEncoderBatchOut where
  question_ids := [[1]]
  question_segments := [[0]]
  question_entity_ids := [[0]]
  question_entity_position_ids := [[[0]]]
  question_entity_segments := [[0]]
  context_ids := [[1], [3], [5]]
  ctx_segments := [[0], [0], [0]]
  ctx_entity_ids := [[0], [0], [0]]
  ctx_entity_position_ids := [[[0]], [[0]], [[0]]]
  ctx_entity_segments := [[0], [0], [0]]
  is_positive := [0]
  hard_negatives := [[1]]
  encoder_type := "question"

/-!  Concrete real-valued fixtures for the scorer and loss claims. -/

/-- Query matrix whose dot products with `cC2` give scores [[2,1,0],[0,1,2]]. -/
def qC2 : Matrix (Fin 2) (Fin 2) ℝ := !![1, 0; 0, 1]

def cC2 : Matrix (Fin 3) (Fin 2) ℝ := !![2, 0; 1, 1; 0, 2]

def qeC2 : Matrix (Fin 2) (Fin 1) ℝ := 0

def ceC2 : Matrix (Fin 3) (Fin 1) ℝ := 0

def posC2 : Fin 2 → Fin 3 := ![0, 2]

def qC8 : Matrix (Fin 2) (Fin 2) ℝ := !![1, 0; 0, 1]

def pC8 : Matrix (Fin 2) (Fin 2) ℝ := !![0, 1; 1, 0]

/-!  Helper lemmas about the small list operations. -/

theorem exceptBind_ok {ε α β : Type} (a : α) (f : α → Except ε β) :
    (Except.ok a >>= f : Except ε β) = f a := rfl

theorem exceptBind_err {ε α β : Type} (e : ε) (f : α → Except ε β) :
    ((Except.error e : Except ε α) >>= f : Except ε β) = Except.error e := rfl

theorem exceptPure {ε α : Type} (a : α) : (pure a : Except ε α) = Except.ok a := rfl

theorem setLast_length (v : Nat) : ∀ xs : List Nat, (setLast v xs).length = xs.length
  | [] => rfl
  | [_] => rfl
  | x :: y :: xs => by
      simpa [setLast] using setLast_length v (y :: xs)

theorem setLast_get?_lt (v : Nat) :
    ∀ (xs : List Nat) (j : Nat), j + 1 < xs.length → (setLast v xs).get? j = xs.get? j
  | [], j, h => by simp at h
  | [_], j, h => by simp at h
  | x :: y :: xs, 0, _ => rfl
  | x :: y :: xs, j + 1, h => by
      simpa [setLast] using setLast_get?_lt v (y :: xs) j (by simpa using h)

theorem setLast_getLast? (v : Nat) :
    ∀ xs : List Nat, xs ≠ [] → (setLast v xs).getLast? = some v
  | [], h => absurd rfl h
  | [_], _ => rfl
  | x :: y :: xs, _ => by
      have := setLast_getLast? v (y :: xs) (by simp)
      rw [setLast]
      cases hsl : setLast v (y :: xs) with
      | nil => simp [hsl] at this
      | cons a as =>
          rw [hsl] at this
          rw [List.getLast?_cons_cons]
          exact this

theorem mem_setLast (v x : Nat) :
    ∀ xs : List Nat, x ∈ setLast v xs → x ∈ xs ∨ x = v
  | [], h => by simp [setLast] at h
  | [a], h => by simp [setLast] at h; simp [h]
  | a :: b :: xs, h => by
      rw [setLast, List.mem_cons] at h
      rcases h with h | h
      · exact Or.inl (by simp [h])
      · rcases mem_setLast v x (b :: xs) h with h2 | h2
        · exact Or.inl (List.mem_cons_of_mem _ h2)
        · exact Or.inr h2

theorem padToLen_length (padId maxLen : Nat) (xs : List Nat) :
    (padToLen padId maxLen xs).length = maxLen := by
  unfold padToLen
  split
  · simpa using by omega
  · simp; omega

theorem padToLen_get?_lt (padId maxLen : Nat) (xs : List Nat) (j : Nat)
    (hj : j < xs.length) (hj2 : j < maxLen) :
    (padToLen padId maxLen xs).get? j = xs.get? j := by
  unfold padToLen
  split
  · exact List.get?_take hj2
  · exact List.get?_append hj

theorem applyMaxLen_length (maxLen sepId padId : Nat) (xs : List Nat) :
    (applyMaxLen maxLen sepId padId xs).length = maxLen := by
  unfold applyMaxLen
  split
  · rw [setLast_length, List.length_take]; omega
  · simp; omega

theorem mem_applyMaxLen (maxLen sepId padId x : Nat) (xs : List Nat)
    (h : x ∈ applyMaxLen maxLen sepId padId xs) : x ∈ xs ∨ x = sepId ∨ x = padId := by
  unfold applyMaxLen at h
  split at h
  · rcases mem_setLast _ _ _ h with h2 | h2
    · exact Or.inl (List.mem_of_mem_take h2)
    · exact Or.inr (Or.inl h2)
  · rcases List.mem_append.mp h with h2 | h2
    · exact Or.inl h2
    · exact Or.inr (Or.inr (List.eq_of_mem_replicate h2))

theorem applyMaxLen_get?_lt (maxLen sepId padId : Nat) (xs : List Nat) (j : Nat)
    (hle : maxLen ≤ xs.length) (hj : j + 1 < maxLen) :
    (applyMaxLen maxLen sepId padId xs).get? j = xs.get? j := by
  unfold applyMaxLen
  rw [if_pos hle, setLast_get?_lt _ _ _ (by rw [List.length_take]; omega),
    List.get?_take (by omega)]

theorem firstIdx_get? (v : Nat) :
    ∀ (xs : List Nat) (p : Nat), firstIdx v xs = some p → xs.get? p = some v
  | [], p, h => by simp [firstIdx] at h
  | x :: xs, p, h => by
      rw [firstIdx] at h
      split at h
      · cases h; simpa using by assumption
      · cases hrec : firstIdx v xs with
        | none => rw [hrec] at h; simp at h
        | some q =>
            rw [hrec] at h
            simp at h
            subst h
            simpa using firstIdx_get? v xs q hrec

theorem firstIdx_isSome (v : Nat) :
    ∀ xs : List Nat, v ∈ xs → ∃ p, firstIdx v xs = some p
  | [], h => by simp at h
  | x :: xs, h => by
      rw [firstIdx]
      split
      · exact ⟨0, rfl⟩
      · rename_i hne
        rcases List.mem_cons.mp h with h2 | h2
        · exact absurd h2.symm hne
        · obtain ⟨p, hp⟩ := firstIdx_isSome v xs h2
          exact ⟨p + 1, by rw [hp]; rfl⟩

theorem firstIdx_none (v : Nat) :
    ∀ xs : List Nat, v ∉ xs → firstIdx v xs = none
  | [], _ => rfl
  | x :: xs, h => by
      rw [firstIdx, if_neg (fun hx => h (by rw [← hx]; exact List.mem_cons_self x xs)),
        firstIdx_none v xs (fun hx => h (List.mem_cons_of_mem _ hx))]
      rfl

/-!  Lemmas about `selectSpanWithToken`. -/

/-- The relation the real tensorizer's `apply_max_len=True` output bears to
its untruncated output (modelled from the spec, see `applyMaxLen`). -/
def TruncOf (tz : Tensorizer) : Prop :=
  ∀ text, truncTok tz text =
    applyMaxLen tz.max_length tz.sep_token_id tz.pad_id (fullTok tz text)

theorem selectSpan_ok_length (tz : Tensorizer) (rndShift : Int) (text tok : String)
    (htr : TruncOf tz) (r : List Nat)
    (h : selectSpanWithToken tz rndShift text tok = .ok r) :
    r.length = tz.max_length := by
  rw [selectSpanWithToken] at h
  dsimp only at h
  by_cases h1 : tz.get_token_id tok ∈ truncTok tz text
  · rw [if_pos h1] at h
    cases h
    rw [htr text, applyMaxLen_length]
  · rw [if_neg h1] at h
    cases hp : firstIdx (tz.get_token_id tok) (fullTok tz text) with
    | none => rw [hp] at h; cases h
    | some p =>
        rw [hp] at h
        dsimp only at h
        by_cases h2 : tz.get_token_id tok ∈
            setLast tz.sep_token_id (padToLen tz.pad_id tz.max_length
              (if (pyTailFrom (fullTok tz text)
                    ((p : ℤ) - ((tz.max_length / 2 : ℕ) + rndShift))).head? =
                  some tz.cls_token_id then
                pyTailFrom (fullTok tz text)
                  ((p : ℤ) - ((tz.max_length / 2 : ℕ) + rndShift))
              else tz.cls_token_id ::
                pyTailFrom (fullTok tz text)
                  ((p : ℤ) - ((tz.max_length / 2 : ℕ) + rndShift))))
        · rw [if_pos h2] at h
          cases h
          rw [setLast_length, padToLen_length]
        · rw [if_neg h2] at h
          cases h

theorem marker_first_pos (tz : Tensorizer) (text : String) (htr : TruncOf tz)
    (id p : Nat) (hout : id ∉ truncTok tz text)
    (hp : firstIdx id (fullTok tz text) = some p) :
    tz.max_length ≤ p + 1 ∧ tz.max_length ≤ (fullTok tz text).length ∧
      (fullTok tz text).get? p = some id := by
  have hget := firstIdx_get? id (fullTok tz text) p hp
  have hplen : p < (fullTok tz text).length := by
    by_contra hcon
    rw [List.get?_eq_none.mpr (by omega)] at hget
    cases hget
  have hfull : tz.max_length ≤ (fullTok tz text).length := by
    by_contra hcon
    apply hout
    rw [htr text]
    unfold applyMaxLen
    rw [if_neg (by omega)]
    exact List.mem_append_left _ (List.get?_mem hget)
  refine ⟨?_, hfull, hget⟩
  by_contra hcon
  apply hout
  rw [htr text]
  have := applyMaxLen_get?_lt tz.max_length tz.sep_token_id tz.pad_id
    (fullTok tz text) p hfull (by omega)
  exact List.get?_mem (this.trans hget)

theorem selectSpan_marker_ok (tz : Tensorizer) (shift : Int) (text tok : String)
    (htr : TruncOf tz) (hshift : 4 * shift.natAbs ≤ tz.max_length / 2)
    (hL : 8 ≤ tz.max_length)
    (hin : tz.get_token_id tok ∈ fullTok tz text)
    (hout : tz.get_token_id tok ∉ truncTok tz text) :
    ∃ r, selectSpanWithToken tz shift text tok = .ok r ∧
      tz.get_token_id tok ∈ r ∧ r.head? = some tz.cls_token_id ∧
      r.getLast? = some tz.sep_token_id ∧ r.length = tz.max_length := by
  obtain ⟨p, hp⟩ := firstIdx_isSome _ _ hin
  obtain ⟨hp1, hp2, hget⟩ := marker_first_pos tz text htr _ p hout hp
  -- arithmetic facts about the jittered left shift
  have habs1 : -(shift.natAbs : ℤ) ≤ shift := by
    rw [← Int.abs_eq_natAbs]; exact neg_abs_le shift
  have habs2 : shift ≤ (shift.natAbs : ℤ) := by
    rw [← Int.abs_eq_natAbs]; exact le_abs_self shift
  have hls_nonneg : 0 ≤ (tz.max_length / 2 : ℕ) + shift := by omega
  set lsn : ℕ := ((tz.max_length / 2 : ℕ) + shift).toNat with hlsn_def
  have hlsn : (lsn : ℤ) = (tz.max_length / 2 : ℕ) + shift := Int.toNat_of_nonneg hls_nonneg
  have hlsn_le : lsn + 2 < tz.max_length := by omega
  have hlsn_p : lsn ≤ p := by omega
  -- the slice retains the marker at offset lsn
  have hstart : (p : ℤ) - ((tz.max_length / 2 : ℕ) + shift) = ((p - lsn : ℕ) : ℤ) := by omega
  have hsliced :
      pyTailFrom (fullTok tz text) ((p : ℤ) - ((tz.max_length / 2 : ℕ) + shift)) =
        (fullTok tz text).drop (p - lsn) := by
    rw [pyTailFrom, if_pos (by omega), hstart, Int.toNat_ofNat]
  have hsl_get : ((fullTok tz text).drop (p - lsn)).get? lsn = some (tz.get_token_id tok) := by
    rw [List.get?_drop]
    rw [show p - lsn + lsn = p by omega]
    exact hget
  -- run the function
  rw [selectSpanWithToken]
  dsimp only
  rw [if_neg hout, hp]
  dsimp only
  rw [hsliced]
  set sliced := (fullTok tz text).drop (p - lsn) with hsl_def
  have main : ∀ (w : List Nat) (q : Nat), w.get? q = some (tz.get_token_id tok) →
      w.head? = some tz.cls_token_id → q + 1 < tz.max_length →
      ∃ r, (if tz.get_token_id tok ∈
              setLast tz.sep_token_id (padToLen tz.pad_id tz.max_length w) then
              Except.ok (ε := String)
                (setLast tz.sep_token_id (padToLen tz.pad_id tz.max_length w))
            else Except.error ("assert failed: query_tensor=" ++
              toString (setLast tz.sep_token_id (padToLen tz.pad_id tz.max_length w)))) =
            .ok r ∧
        tz.get_token_id tok ∈ r ∧ r.head? = some tz.cls_token_id ∧
        r.getLast? = some tz.sep_token_id ∧ r.length = tz.max_length := by
    intro w q hq hw hqL
    have hqlen : q < w.length := by
      by_contra hcon
      rw [List.get?_eq_none.mpr (by omega)] at hq
      cases hq
    have hpad_get : (padToLen tz.pad_id tz.max_length w).get? q = some (tz.get_token_id tok) := by
      rw [padToLen_get?_lt _ _ _ _ hqlen (by omega)]
      exact hq
    have hfin_get :
        (setLast tz.sep_token_id (padToLen tz.pad_id tz.max_length w)).get? q =
          some (tz.get_token_id tok) := by
      rw [setLast_get?_lt _ _ _ (by rw [padToLen_length]; omega)]
      exact hpad_get
    have hmem := List.get?_mem hfin_get
    refine ⟨_, by rw [if_pos hmem], hmem, ?_, ?_, ?_⟩
    · have h0 : (padToLen tz.pad_id tz.max_length w).get? 0 = some tz.cls_token_id := by
        rw [padToLen_get?_lt _ _ _ _ (by omega) (by omega), List.get?_zero]
        exact hw
      rw [← List.get?_zero, setLast_get?_lt _ _ _ (by rw [padToLen_length]; omega)]
      exact h0
    · refine setLast_getLast? _ _ ?_
      have := padToLen_length tz.pad_id tz.max_length w
      intro hnil
      rw [hnil] at this
      simp at this
      omega
    · rw [setLast_length, padToLen_length]
  by_cases hhd : sliced.head? = some tz.cls_token_id
  · rw [if_pos hhd]
    exact main sliced lsn hsl_get hhd (by omega)
  · rw [if_neg hhd]
    refine main (tz.cls_token_id :: sliced) (lsn + 1) (by simpa using hsl_get) rfl (by omega)

theorem selectSpan_marker_absent (tz : Tensorizer) (shift : Int) (text tok : String)
    (htr : TruncOf tz)
    (hfull : tz.get_token_id tok ∉ fullTok tz text)
    (hsep : tz.get_token_id tok ≠ tz.sep_token_id)
    (hpad : tz.get_token_id tok ≠ tz.pad_id) :
    selectSpanWithToken tz shift text tok =
      .error ("[START_ENT] toke not found for Entity Linking sample query=" ++ text) := by
  have hout : tz.get_token_id tok ∉ truncTok tz text := by
    intro hmem
    rw [htr text] at hmem
    rcases mem_applyMaxLen _ _ _ _ _ hmem with h | h | h
    exacts [hfull h, hsep h, hpad h]
  rw [selectSpanWithToken]
  dsimp only
  rw [if_neg hout, firstIdx_none _ _ hfull]

theorem selectSpan_shift_dichotomy (tz : Tensorizer) (s1 s2 : Int) (text tok : String)
    (htr : TruncOf tz) (h1 : 4 * s1.natAbs ≤ tz.max_length / 2)
    (h2 : 4 * s2.natAbs ≤ tz.max_length / 2) :
    selectSpanWithToken tz s1 text tok = selectSpanWithToken tz s2 text tok ∨
    ((∃ r1, selectSpanWithToken tz s1 text tok = .ok r1) ∧
     (∃ r2, selectSpanWithToken tz s2 text tok = .ok r2)) := by
  by_cases hmem : tz.get_token_id tok ∈ truncTok tz text
  · left
    rw [selectSpanWithToken, selectSpanWithToken]
    dsimp only
    rw [if_pos hmem, if_pos hmem]
  · by_cases hfull : tz.get_token_id tok ∈ fullTok tz text
    · by_cases hL : 8 ≤ tz.max_length
      · right
        obtain ⟨r1, hr1, -, -, -, -⟩ := selectSpan_marker_ok tz s1 text tok htr h1 hL hfull hmem
        obtain ⟨r2, hr2, -, -, -, -⟩ := selectSpan_marker_ok tz s2 text tok htr h2 hL hfull hmem
        exact ⟨⟨r1, hr1⟩, ⟨r2, hr2⟩⟩
      · left
        have hz1 : s1 = 0 := Int.natAbs_eq_zero.mp (by omega)
        have hz2 : s2 = 0 := Int.natAbs_eq_zero.mp (by omega)
        rw [hz1, hz2]
    · left
      rw [selectSpanWithToken, selectSpanWithToken]
      dsimp only
      rw [if_neg hmem, if_neg hmem, firstIdx_none _ _ hfull]

/-!  Oracle irrelevance of the batch builder when `shuffle=False`. -/

theorem shuffledNegs_no_shuffle (cfg : BatchConfig) (o : RandomOracle) (i : Nat)
    (s : BiEncoderSample) (hsh : cfg.shuffle = false) :
    shuffledNegs cfg o i s = s.negative_passages := by
  simp [shuffledNegs, hsh]

theorem shuffledHards_no_shuffle (cfg : BatchConfig) (o : RandomOracle) (i : Nat)
    (s : BiEncoderSample) (hsh : cfg.shuffle = false) :
    shuffledHards cfg o i s = s.hard_negative_passages := by
  simp [shuffledHards, hsh]

theorem sampleNegSlice_oracle (cfg : BatchConfig) (o1 o2 : RandomOracle) (i : Nat)
    (s : BiEncoderSample) (hsh : cfg.shuffle = false) :
    sampleNegSlice cfg o1 i s = sampleNegSlice cfg o2 i s := by
  simp [sampleNegSlice, shuffledNegs, hsh]

theorem sampleHardSlice_oracle (cfg : BatchConfig) (o1 o2 : RandomOracle) (i : Nat)
    (s : BiEncoderSample) (hsh : cfg.shuffle = false) :
    sampleHardSlice cfg o1 i s = sampleHardSlice cfg o2 i s := by
  simp [sampleHardSlice, fallbackHards, shuffledHards, shuffledNegs, hsh]

theorem updatedSample_no_shuffle (cfg : BatchConfig) (o : RandomOracle) (i : Nat)
    (s : BiEncoderSample) (hsh : cfg.shuffle = false) :
    updatedSample cfg o i s = s := by
  simp [updatedSample, shuffledNegs, shuffledHards, hsh]

theorem selectPositive_oracle (cfg : BatchConfig) (o1 o2 : RandomOracle) (i : Nat)
    (s : BiEncoderSample) (hsh : cfg.shuffle = false) :
    selectPositive cfg o1 i s = selectPositive cfg o2 i s := by
  simp [selectPositive, hsh]

theorem appendQuestion_oracle_free (cfg : BatchConfig) (o1 o2 : RandomOracle) (i : Nat)
    (s : BiEncoderSample) (st : BatchState)
    (hqt : cfg.query_token ≠ some "[START_ENT]") :
    appendQuestion cfg o1 i s st = appendQuestion cfg o2 i s st := by
  unfold appendQuestion
  cases h : cfg.query_token with
  | none => rfl
  | some qt =>
      have hq : ¬(qt = "[START_ENT]") := fun he => hqt (by rw [h, he])
      dsimp only
      rw [if_neg hq, if_neg hq]

theorem processSample_oracle_free (cfg : BatchConfig) (o1 o2 : RandomOracle) (i : Nat)
    (st : BatchState) (s : BiEncoderSample)
    (hsh : cfg.shuffle = false) (hqt : cfg.query_token ≠ some "[START_ENT]") :
    processSample cfg o1 i st s = processSample cfg o2 i st s := by
  unfold processSample
  rw [selectPositive_oracle cfg o1 o2 i s hsh]
  cases hsel : selectPositive cfg o2 i s with
  | error e => rfl
  | ok p =>
      rw [sampleNegSlice_oracle cfg o1 o2 i s hsh, sampleHardSlice_oracle cfg o1 o2 i s hsh]
      simp only [Except.bind]
      simp only [show ∀ st0, appendQuestion cfg o1 i s st0 = appendQuestion cfg o2 i s st0 from
          fun st0 => appendQuestion_oracle_free cfg o1 o2 i s st0 hqt,
        updatedSample_no_shuffle cfg o1 i s hsh, updatedSample_no_shuffle cfg o2 i s hsh]

theorem processSamples_oracle_free (cfg : BatchConfig) (o1 o2 : RandomOracle)
    (hsh : cfg.shuffle = false) (hqt : cfg.query_token ≠ some "[START_ENT]") :
    ∀ (samples : List BiEncoderSample) (i : Nat) (st : BatchState),
      processSamples cfg o1 i st samples = processSamples cfg o2 i st samples
  | [], _, _ => rfl
  | s :: rest, i, st => by
      unfold processSamples
      rw [processSample_oracle_free cfg o1 o2 i st s hsh hqt]
      cases h : processSample cfg o2 i st s with
      | error e => rfl
      | ok p =>
          show Except.bind _ _ = Except.bind _ _
          simp only [Except.bind]
          rw [processSamples_oracle_free cfg o1 o2 hsh hqt rest (i + 1) p.1]

/-!  Marker-mode step lemmas: with `shuffle=False` and the `[START_ENT]`
query token, two oracle choices keep the batch states related by `qrel`. -/

theorem qrel_refl (a : BatchState) : qrel a a := ⟨rfl, rfl⟩

theorem qrel_fields {a b : BatchState} (h : qrel a b) :
    a.question_entity_tensors = b.question_entity_tensors ∧
    a.question_entity_position_ids = b.question_entity_position_ids ∧
    a.ctx_tensors = b.ctx_tensors ∧
    a.ctx_entity_tensors = b.ctx_entity_tensors ∧
    a.ctxs_entity_position_ids = b.ctxs_entity_position_ids ∧
    a.positive_ctx_indices = b.positive_ctx_indices ∧
    a.hard_neg_ctx_indices = b.hard_neg_ctx_indices := by
  obtain ⟨he, -⟩ := h
  cases a
  cases b
  simp only [eraseQ, BatchState.mk.injEq] at he
  simpa using he

theorem qrel_appendCtxs (cfg : BatchConfig) (p : BiEncoderPassage)
    (negs hards : List BiEncoderPassage) {a b : BatchState} (hr : qrel a b) :
    qrel (appendCtxs cfg a p negs hards) (appendCtxs cfg b p negs hards) := by
  obtain ⟨h1, h2, h3, h4, h5, h6, h7⟩ := qrel_fields hr
  obtain ⟨-, hl⟩ := hr
  constructor
  · cases a
    cases b
    simp only at h1 h2 h3 h4 h5 h6 h7
    simp [appendCtxs, eraseQ, h1, h2, h3, h4, h5, h6, h7]
  · simpa [appendCtxs] using hl

theorem qrel_appendQ (r1 r2 : List Nat) (hlen : r1.length = r2.length)
    {a b : BatchState} (hr : qrel a b) :
    qrel { a with question_tensors := a.question_tensors ++ [r1] }
         { b with question_tensors := b.question_tensors ++ [r2] } := by
  obtain ⟨he, hl⟩ := hr
  constructor
  · cases a
    cases b
    simpa [eraseQ] using he
  · simp [hl, hlen]

theorem appendQuestion_marker_step (cfg : BatchConfig) (o1 o2 : RandomOracle) (i : Nat)
    (s : BiEncoderSample) {a b : BatchState}
    (hqt : cfg.query_token = some "[START_ENT]") (htr : TruncOf cfg.tz)
    (hb1 : 4 * (o1.span_rnd_shift i).natAbs ≤ cfg.tz.max_length / 2)
    (hb2 : 4 * (o2.span_rnd_shift i).natAbs ≤ cfg.tz.max_length / 2)
    (hr : qrel a b) :
    (∃ e, appendQuestion cfg o1 i s a = .error e ∧ appendQuestion cfg o2 i s b = .error e) ∨
    (∃ a2 b2, appendQuestion cfg o1 i s a = .ok a2 ∧ appendQuestion cfg o2 i s b = .ok b2 ∧
      qrel a2 b2) := by
  unfold appendQuestion
  rw [hqt]
  dsimp only
  rw [if_pos rfl]
  rcases selectSpan_shift_dichotomy cfg.tz (o1.span_rnd_shift i) (o2.span_rnd_shift i)
      s.query.text "[START_ENT]" htr hb1 hb2 with heq | ⟨⟨r1, hr1⟩, ⟨r2, hr2⟩⟩
  · cases hres : selectSpanWithToken cfg.tz (o2.span_rnd_shift i) s.query.text "[START_ENT]" with
    | error e =>
        rw [heq, hres]
        exact Or.inl ⟨e, rfl, rfl⟩
    | ok r =>
        rw [heq, hres]
        exact Or.inr ⟨_, _, rfl, rfl, qrel_appendQ r r rfl hr⟩
  · rw [hr1, hr2]
    have hlen1 := selectSpan_ok_length cfg.tz (o1.span_rnd_shift i) s.query.text
      "[START_ENT]" htr r1 hr1
    have hlen2 := selectSpan_ok_length cfg.tz (o2.span_rnd_shift i) s.query.text
      "[START_ENT]" htr r2 hr2
    exact Or.inr ⟨_, _, rfl, rfl, qrel_appendQ r1 r2 (by rw [hlen1, hlen2]) hr⟩

theorem processSample_marker_step (cfg : BatchConfig) (o1 o2 : RandomOracle) (i : Nat)
    (s : BiEncoderSample) {a b : BatchState}
    (hsh : cfg.shuffle = false) (hqt : cfg.query_token = some "[START_ENT]")
    (htr : TruncOf cfg.tz)
    (hb1 : 4 * (o1.span_rnd_shift i).natAbs ≤ cfg.tz.max_length / 2)
    (hb2 : 4 * (o2.span_rnd_shift i).natAbs ≤ cfg.tz.max_length / 2)
    (hr : qrel a b) :
    (∃ e, processSample cfg o1 i a s = .error e ∧ processSample cfg o2 i b s = .error e) ∨
    (∃ a2 b2 s2, processSample cfg o1 i a s = .ok (a2, s2) ∧
      processSample cfg o2 i b s = .ok (b2, s2) ∧ qrel a2 b2) := by
  unfold processSample
  cases hsel : selectPositive cfg o1 i s with
  | error e =>
      rw [selectPositive_oracle cfg o2 o1 i s hsh, hsel]
      exact Or.inl ⟨e, rfl, rfl⟩
  | ok p =>
      rw [selectPositive_oracle cfg o2 o1 i s hsh, hsel]
      simp only [exceptBind_ok]
      rw [sampleNegSlice_oracle cfg o2 o1 i s hsh, sampleHardSlice_oracle cfg o2 o1 i s hsh]
      have hstep := appendQuestion_marker_step cfg o1 o2 i s hqt htr hb1 hb2
        (qrel_appendCtxs cfg p (sampleNegSlice cfg o1 i s) (sampleHardSlice cfg o1 i s) hr)
      rcases hstep with ⟨e, he1, he2⟩ | ⟨a2, b2, ha2, hb2', hr2⟩
      · rw [he1, he2]
        simp only [exceptBind_err]
        exact Or.inl ⟨e, rfl, rfl⟩
      · rw [ha2, hb2']
        simp only [exceptBind_ok, exceptPure]
        rw [updatedSample_no_shuffle cfg o1 i s hsh, updatedSample_no_shuffle cfg o2 i s hsh]
        exact Or.inr ⟨a2, b2, s, rfl, rfl, hr2⟩

theorem processSamples_marker (cfg : BatchConfig) (o1 o2 : RandomOracle)
    (hsh : cfg.shuffle = false) (hqt : cfg.query_token = some "[START_ENT]")
    (htr : TruncOf cfg.tz)
    (hb1 : ∀ j, 4 * (o1.span_rnd_shift j).natAbs ≤ cfg.tz.max_length / 2)
    (hb2 : ∀ j, 4 * (o2.span_rnd_shift j).natAbs ≤ cfg.tz.max_length / 2) :
    ∀ (samples : List BiEncoderSample) (i : Nat) (a b : BatchState), qrel a b →
    (∃ e, processSamples cfg o1 i a samples = .error e ∧
          processSamples cfg o2 i b samples = .error e) ∨
    (∃ a2 b2 us, processSamples cfg o1 i a samples = .ok (a2, us) ∧
      processSamples cfg o2 i b samples = .ok (b2, us) ∧ qrel a2 b2)
  | [], i, a, b, hr => Or.inr ⟨a, b, [], rfl, rfl, hr⟩
  | s :: rest, i, a, b, hr => by
      unfold processSamples
      rcases processSample_marker_step cfg o1 o2 i s hsh hqt htr (hb1 i) (hb2 i) hr with
        ⟨e, he1, he2⟩ | ⟨a2, b2, s2, ha2, hb2', hr2⟩
      · rw [he1, he2]
        simp only [exceptBind_err]
        exact Or.inl ⟨e, rfl, rfl⟩
      · rw [ha2, hb2']
        simp only [exceptBind_ok]
        rcases processSamples_marker cfg o1 o2 hsh hqt htr hb1 hb2 rest (i + 1) a2 b2 hr2 with
          ⟨e, he1, he2⟩ | ⟨a3, b3, us, ha3, hb3, hr3⟩
        · rw [he1, he2]
          simp only [exceptBind_err]
          exact Or.inl ⟨e, rfl, rfl⟩
        · rw [ha3, hb3]
          simp only [exceptBind_ok]
          exact Or.inr ⟨a3, b3, s2 :: us, rfl, rfl, hr3⟩

theorem appendQuestion_marker_qet (cfg : BatchConfig) (o : RandomOracle) (i : Nat)
    (s : BiEncoderSample) (a a2 : BatchState)
    (hqt : cfg.query_token = some "[START_ENT]")
    (h : appendQuestion cfg o i s a = .ok a2) :
    a2.question_entity_tensors = a.question_entity_tensors := by
  unfold appendQuestion at h
  rw [hqt] at h
  dsimp only at h
  rw [if_pos rfl] at h
  cases hsel : selectSpanWithToken cfg.tz (o.span_rnd_shift i) s.query.text "[START_ENT]" with
  | error e => rw [hsel] at h; cases h
  | ok r =>
      rw [hsel] at h
      cases h
      rfl

theorem processSample_marker_qet (cfg : BatchConfig) (o : RandomOracle) (i : Nat)
    (s : BiEncoderSample) (a a2 : BatchState) (s2 : BiEncoderSample)
    (hqt : cfg.query_token = some "[START_ENT]")
    (h : processSample cfg o i a s = .ok (a2, s2)) :
    a2.question_entity_tensors = a.question_entity_tensors := by
  unfold processSample at h
  cases hsel : selectPositive cfg o i s with
  | error e => rw [hsel] at h; cases h
  | ok p =>
      rw [hsel] at h
      simp only [exceptBind_ok] at h
      cases happ : appendQuestion cfg o i s
          (appendCtxs cfg a p (sampleNegSlice cfg o i s) (sampleHardSlice cfg o i s)) with
      | error e => rw [happ] at h; cases h
      | ok stq =>
          rw [happ] at h
          simp only [exceptBind_ok, exceptPure] at h
          cases h
          rw [appendQuestion_marker_qet cfg o i s _ _ hqt happ]
          rfl

theorem processSamples_marker_qet (cfg : BatchConfig) (o : RandomOracle)
    (hqt : cfg.query_token = some "[START_ENT]") :
    ∀ (samples : List BiEncoderSample) (i : Nat) (a a2 : BatchState)
      (us : List BiEncoderSample),
      processSamples cfg o i a samples = .ok (a2, us) →
      a2.question_entity_tensors = a.question_entity_tensors
  | [], i, a, a2, us, h => by
      unfold processSamples at h
      cases h
      rfl
  | s :: rest, i, a, a2, us, h => by
      unfold processSamples at h
      cases hps : processSample cfg o i a s with
      | error e => rw [hps] at h; cases h
      | ok p =>
          rw [hps] at h
          simp only [exceptBind_ok] at h
          cases hrest : processSamples cfg o (i + 1) p.1 rest with
          | error e => rw [hrest] at h; cases h
          | ok q =>
              rw [hrest] at h
              simp only [exceptBind_ok] at h
              cases h
              rw [processSamples_marker_qet cfg o hqt rest (i + 1) p.1 q.1 q.2 (by rw [hrest]),
                processSample_marker_qet cfg o i s a p.1 p.2 hqt (by rw [hps])]

theorem all_length_congr (n : Nat) :
    ∀ {xs ys : List (List Nat)}, xs.map List.length = ys.map List.length →
      (xs.all fun t => t.length = n) = (ys.all fun t => t.length = n)
  | [], [], _ => rfl
  | [], _ :: _, h => by simp at h
  | _ :: _, [], h => by simp at h
  | x :: xs, y :: ys, h => by
      simp only [List.map_cons, List.cons.injEq] at h
      simp only [List.all_cons, h.1, all_length_congr n h.2]

theorem allSameLength_congr :
    ∀ {xs ys : List (List Nat)}, xs.map List.length = ys.map List.length →
      allSameLength xs = allSameLength ys
  | [], [], _ => rfl
  | [], _ :: _, h => by simp at h
  | _ :: _, [], h => by simp at h
  | x :: xs, y :: ys, h => by
      simp only [List.map_cons, List.cons.injEq] at h
      simp only [allSameLength]
      simp only [h.1]
      exact all_length_congr y.length h.2

theorem catRowsNat_cases {xs ys : List (List Nat)}
    (h : xs.map List.length = ys.map List.length) :
    (catRowsNat xs = .ok xs ∧ catRowsNat ys = .ok ys) ∨
    (∃ e, catRowsNat xs = .error e ∧ catRowsNat ys = .error e) := by
  have hemp : xs.isEmpty = ys.isEmpty := by
    cases xs <;> cases ys <;> simp_all
  unfold catRowsNat
  rw [hemp, allSameLength_congr h]
  by_cases h1 : ys.isEmpty
  · exact Or.inr ⟨catEmptyMsg, by rw [if_pos h1], by rw [if_pos h1]⟩
  · by_cases h2 : allSameLength ys
    · exact Or.inl ⟨by rw [if_neg h1, if_pos h2], by rw [if_neg h1, if_pos h2]⟩
    · exact Or.inr ⟨_, by rw [if_neg h1, if_neg h2], by rw [if_neg h1, if_neg h2]⟩

theorem assembleBatch_congr {a b : BatchState} (hr : qrel a b)
    (hqet : a.question_entity_tensors = []) :
    assembleBatch a = assembleBatch b := by
  obtain ⟨h1, h2, h3, h4, h5, h6, h7⟩ := qrel_fields hr
  obtain ⟨-, hl⟩ := hr
  unfold assembleBatch
  simp only [← h1, ← h2, ← h3, ← h4, ← h5, ← h6, ← h7]
  cases hc1 : catRowsNat a.ctx_tensors with
  | error e => simp only [exceptBind_err]
  | ok v1 =>
      simp only [exceptBind_ok]
      cases hc2 : catRowsNat a.ctx_entity_tensors with
      | error e => simp only [exceptBind_err]
      | ok v2 =>
          simp only [exceptBind_ok]
          rcases catRowsNat_cases hl with ⟨hq1, hq2⟩ | ⟨e, hq1, hq2⟩
          · rw [hq1, hq2]
            simp only [exceptBind_ok]
            rw [hqet]
            have hco : catRowsNat ([] : List (List Nat)) = .error catEmptyMsg := rfl
            rw [hco]
            simp only [exceptBind_err]
          · rw [hq1, hq2]

/-- C5: with `shuffle=False` the output of `create_biencoder_input` does not
depend on the random sources: for any two oracles (whose span jitters lie
in the range the code's formula can produce) the results coincide, for
every query-token mode.  In the `[START_ENT]` mode the jitter still feeds
the chosen span, but every such run aborts at the `torch.cat` stacking step
with the same error because the span branch appends no question entity
tensors, so the returned value (here, the raised error) is still
oracle-independent.  The tensorizer is assumed to truncate faithfully
(`TruncOf`, modelled from the spec). -/
theorem C5_shuffle_false_deterministic (cfg : BatchConfig) (o1 o2 : RandomOracle)
    (samples : List BiEncoderSample)
    (hsh : cfg.shuffle = false) (htr : TruncOf cfg.tz)
    (hb1 : ∀ j, 4 * (o1.span_rnd_shift j).natAbs ≤ cfg.tz.max_length / 2)
    (hb2 : ∀ j, 4 * (o2.span_rnd_shift j).natAbs ≤ cfg.tz.max_length / 2) :
    create_biencoder_input cfg o1 samples = create_biencoder_input cfg o2 samples := by
  by_cases hqt : cfg.query_token = some "[START_ENT]"
  · unfold create_biencoder_input
    rcases processSamples_marker cfg o1 o2 hsh hqt htr hb1 hb2 samples 0
        emptyBatchState emptyBatchState (qrel_refl _) with
      ⟨e, he1, he2⟩ | ⟨a2, b2, us, h1, h2, hr⟩
    · rw [he1, he2]
    · rw [h1, h2]
      simp only [exceptBind_ok]
      have hqet : a2.question_entity_tensors = [] :=
        processSamples_marker_qet cfg o1 hqt samples 0 emptyBatchState a2 us h1
      rw [assembleBatch_congr hr hqet]
  · unfold create_biencoder_input
    rw [processSamples_oracle_free cfg o1 o2 hsh hqt samples 0 emptyBatchState]

/-- Witness for C5 at a concrete span-mode fixture: the two oracles differ
only in the span jitter (0 versus 1), and the two calls return the same
value. -/
theorem C5_witness :
    (cfg5.shuffle = false ∧ TruncOf cfg5.tz ∧
      (∀ j, 4 * (oracle5a.span_rnd_shift j).natAbs ≤ cfg5.tz.max_length / 2) ∧
      (∀ j, 4 * (oracle5b.span_rnd_shift j).natAbs ≤ cfg5.tz.max_length / 2)) ∧
    create_biencoder_input cfg5 oracle5a [sample5] =
      create_biencoder_input cfg5 oracle5b [sample5] :=
  ⟨⟨rfl, fun _ => rfl,
      by intro j; show 4 * (0 : Int).natAbs ≤ 16 / 2; decide,
      by intro j; show 4 * (1 : Int).natAbs ≤ 16 / 2; decide⟩,
    C5_shuffle_false_deterministic cfg5 oracle5a oracle5b [sample5] rfl (fun _ => rfl)
      (by intro j; show 4 * (0 : Int).natAbs ≤ 16 / 2; decide)
      (by intro j; show 4 * (1 : Int).natAbs ≤ 16 / 2; decide)⟩

/-- C7: if the marker token occurs in the full untruncated query tensor but
not in the length-truncated one, `_select_span_with_token` succeeds and
returns a tensor that contains the marker, starts with the cls id, ends
with the sep id, and has length exactly `max_length`.  The tensorizer is
assumed to truncate faithfully (`TruncOf`) and the jitter to lie in the
range the code's formula can produce, with a max length of at least 8. -/
theorem C7_span_rewindow (tz : Tensorizer) (shift : Int) (text token_str : String)
    (htr : TruncOf tz) (hshift : 4 * shift.natAbs ≤ tz.max_length / 2)
    (hL : 8 ≤ tz.max_length)
    (hin : tz.get_token_id token_str ∈ fullTok tz text)
    (hout : tz.get_token_id token_str ∉ truncTok tz text) :
    ∃ r, selectSpanWithToken tz shift text token_str = .ok r ∧
      tz.get_token_id token_str ∈ r ∧ r.head? = some tz.cls_token_id ∧
      r.getLast? = some tz.sep_token_id ∧ r.length = tz.max_length :=
  selectSpan_marker_ok tz shift text token_str htr hshift hL hin hout

/-- Witness for C7: a concrete 20-token query with the marker at index 15,
max length 16 and jitter 1. -/
theorem C7_witness :
    (4 * (1 : Int).natAbs ≤ spanTz.max_length / 2 ∧ 8 ≤ spanTz.max_length ∧
      spanTz.get_token_id "[START_ENT]" ∈ fullTok spanTz "q" ∧
      spanTz.get_token_id "[START_ENT]" ∉ truncTok spanTz "q") ∧
    ∃ r, selectSpanWithToken spanTz 1 "q" "[START_ENT]" = .ok r ∧
      spanTz.get_token_id "[START_ENT]" ∈ r ∧ r.head? = some spanTz.cls_token_id ∧
      r.getLast? = some spanTz.sep_token_id ∧ r.length = spanTz.max_length :=
  ⟨⟨by decide, by decide, by decide, by decide⟩,
    C7_span_rewindow spanTz 1 "q" "[START_ENT]" (fun _ => rfl) (by decide) (by decide)
      (by decide) (by decide)⟩

/-- C9: if the marker token does not occur in the full untruncated query
tensor (and is not one of the sep/pad ids the truncation itself inserts),
`_select_span_with_token` fails immediately with a `RuntimeError` whose
message carries the offending query text; no recovery is attempted. -/
theorem C9_marker_absent_fatal (tz : Tensorizer) (shift : Int) (text token_str : String)
    (htr : TruncOf tz)
    (hfull : tz.get_token_id token_str ∉ fullTok tz text)
    (hsep : tz.get_token_id token_str ≠ tz.sep_token_id)
    (hpad : tz.get_token_id token_str ≠ tz.pad_id) :
    selectSpanWithToken tz shift text token_str =
      .error ("[START_ENT] toke not found for Entity Linking sample query=" ++ text) :=
  selectSpan_marker_absent tz shift text token_str htr hfull hsep hpad

/-- Witness for C9 at a concrete marker-free fixture. -/
theorem C9_witness :
    (noMarkerTz.get_token_id "[START_ENT]" ∉ fullTok noMarkerTz "q") ∧
    selectSpanWithToken noMarkerTz 0 "q" "[START_ENT]" =
      .error ("[START_ENT] toke not found for Entity Linking sample query=" ++ "q") :=
  ⟨by decide,
    C9_marker_absent_fatal noMarkerTz 0 "q" "[START_ENT]" (fun _ => rfl) (by decide)
      (by decide) (by decide)⟩

/-!  Bookkeeping of the positive and hard-negative index lists. -/

theorem appendQuestion_ctx_fields (cfg : BatchConfig) (o : RandomOracle) (i : Nat)
    (s : BiEncoderSample) (st st2 : BatchState)
    (h : appendQuestion cfg o i s st = .ok st2) :
    st2.ctx_tensors = st.ctx_tensors ∧
    st2.positive_ctx_indices = st.positive_ctx_indices ∧
    st2.hard_neg_ctx_indices = st.hard_neg_ctx_indices := by
  unfold appendQuestion at h
  cases hq : cfg.query_token with
  | none =>
      rw [hq] at h
      dsimp only at h
      simp only [exceptPure] at h
      cases h
      exact ⟨rfl, rfl, rfl⟩
  | some qt =>
      rw [hq] at h
      dsimp only at h
      by_cases hm : qt = "[START_ENT]"
      · rw [if_pos hm] at h
        cases hsel : selectSpanWithToken cfg.tz (o.span_rnd_shift i) s.query.text qt with
        | error e => rw [hsel] at h; simp only [exceptBind_err] at h; cases h
        | ok r =>
            rw [hsel] at h
            simp only [exceptBind_ok, exceptPure] at h
            cases h
            exact ⟨rfl, rfl, rfl⟩
      · rw [if_neg hm] at h
        simp only [exceptPure] at h
        cases h
        exact ⟨rfl, rfl, rfl⟩

theorem processSample_ok_spec (cfg : BatchConfig) (o : RandomOracle) (i : Nat)
    (st : BatchState) (s : BiEncoderSample) (st2 : BatchState) (s2 : BiEncoderSample)
    (h : processSample cfg o i st s = .ok (st2, s2)) :
    st2.positive_ctx_indices = st.positive_ctx_indices ++ [st.ctx_tensors.length] ∧
    st2.ctx_tensors.length = st.ctx_tensors.length + sampleCtxCount cfg o i s ∧
    st2.hard_neg_ctx_indices = st.hard_neg_ctx_indices ++
      [List.range' (st.ctx_tensors.length + 1) (sampleHardSlice cfg o i s).length] ∧
    s2 = updatedSample cfg o i s := by
  unfold processSample at h
  cases hsel : selectPositive cfg o i s with
  | error e => rw [hsel] at h; simp only [exceptBind_err] at h; cases h
  | ok p =>
      rw [hsel] at h
      simp only [exceptBind_ok] at h
      cases happ : appendQuestion cfg o i s
          (appendCtxs cfg st p (sampleNegSlice cfg o i s) (sampleHardSlice cfg o i s)) with
      | error e => rw [happ] at h; simp only [exceptBind_err] at h; cases h
      | ok stq =>
          rw [happ] at h
          simp only [exceptBind_ok, exceptPure] at h
          cases h
          obtain ⟨hc, hp, hh⟩ := appendQuestion_ctx_fields cfg o i s _ _ happ
          refine ⟨by rw [hp]; rfl, ?_, by rw [hh]; rfl, rfl⟩
          rw [hc]
          show (st.ctx_tensors ++ _).length = _
          rw [List.length_append, List.length_map, List.length_map]
          simp [sampleCtxCount]
          omega

theorem processSamples_ok_spec (cfg : BatchConfig) (o : RandomOracle) :
    ∀ (samples : List BiEncoderSample) (i : Nat) (st st2 : BatchState)
      (us : List BiEncoderSample),
      processSamples cfg o i st samples = .ok (st2, us) →
      st2.positive_ctx_indices = st.positive_ctx_indices ++
        prefixSums st.ctx_tensors.length (ctxCounts cfg o i samples) ∧
      st2.ctx_tensors.length = st.ctx_tensors.length + (ctxCounts cfg o i samples).sum ∧
      us = updatedSamples cfg o i samples
  | [], i, st, st2, us, h => by
      unfold processSamples at h
      cases h
      simp [ctxCounts, prefixSums, updatedSamples]
  | s :: rest, i, st, st2, us, h => by
      unfold processSamples at h
      cases hps : processSample cfg o i st s with
      | error e => rw [hps] at h; simp only [exceptBind_err] at h; cases h
      | ok p =>
          rw [hps] at h
          simp only [exceptBind_ok] at h
          obtain ⟨st1, s1⟩ := p
          cases hrest : processSamples cfg o (i + 1) st1 rest with
          | error e => rw [hrest] at h; simp only [exceptBind_err] at h; cases h
          | ok q =>
              rw [hrest] at h
              obtain ⟨stF, usF⟩ := q
              simp only [exceptBind_ok] at h
              cases h
              obtain ⟨h1, h2, -, h4⟩ := processSample_ok_spec cfg o i st s st1 s1 hps
              obtain ⟨g1, g2, g3⟩ :=
                processSamples_ok_spec cfg o rest (i + 1) st1 _ _ hrest
              refine ⟨?_, ?_, ?_⟩
              · rw [g1, h1, h2]
                simp [ctxCounts, prefixSums]
              · rw [g2, h2]
                simp [ctxCounts]
                omega
              · rw [g3, h4]
                simp [updatedSamples]

theorem catRowsNat_ok (xs r : List (List Nat)) (h : catRowsNat xs = .ok r) : r = xs := by
  unfold catRowsNat at h
  by_cases h1 : xs.isEmpty
  · rw [if_pos h1] at h; cases h
  · rw [if_neg h1] at h
    by_cases h2 : allSameLength xs
    · rw [if_pos h2] at h; cases h; rfl
    · rw [if_neg h2] at h; cases h

theorem assembleBatch_ok_fields (st : BatchState) (b : BiEncoderBatchOut)
    (h : assembleBatch st = .ok b) :
    b.is_positive = st.positive_ctx_indices ∧
    b.hard_negatives = st.hard_neg_ctx_indices ∧
    b.context_ids = st.ctx_tensors := by
  unfold assembleBatch at h
  cases h1 : catRowsNat st.ctx_tensors with
  | error e => rw [h1] at h; simp only [exceptBind_err] at h; cases h
  | ok v1 =>
      rw [h1] at h
      simp only [exceptBind_ok] at h
      cases h2 : catRowsNat st.ctx_entity_tensors with
      | error e => rw [h2] at h; simp only [exceptBind_err] at h; cases h
      | ok v2 =>
          rw [h2] at h
          simp only [exceptBind_ok] at h
          cases h3 : catRowsNat st.question_tensors with
          | error e => rw [h3] at h; simp only [exceptBind_err] at h; cases h
          | ok v3 =>
              rw [h3] at h
              simp only [exceptBind_ok] at h
              cases h4 : catRowsNat st.question_entity_tensors with
              | error e => rw [h4] at h; simp only [exceptBind_err] at h; cases h
              | ok v4 =>
                  rw [h4] at h
                  simp only [exceptBind_ok] at h
                  cases h5 : catNonEmpty st.question_entity_position_ids with
                  | error e => rw [h5] at h; simp only [exceptBind_err] at h; cases h
                  | ok v5 =>
                      rw [h5] at h
                      simp only [exceptBind_ok] at h
                      cases h6 : catNonEmpty st.ctxs_entity_position_ids with
                      | error e => rw [h6] at h; simp only [exceptBind_err] at h; cases h
                      | ok v6 =>
                          rw [h6] at h
                          simp only [exceptBind_ok] at h
                          cases h
                          exact ⟨rfl, rfl, catRowsNat_ok _ _ h1⟩

/-- C3: for every argument setting and every run that returns a batch, the
recorded positive index of sample i is the number of context rows the
earlier samples contributed: the `is_positive` list is exactly the list of
partial sums of the per-sample context counts (each sample's slice starts
with its positive). -/
theorem C3_positive_index_partial_sums (cfg : BatchConfig) (o : RandomOracle)
    (samples : List BiEncoderSample) (p : BiEncoderBatchOut × List BiEncoderSample)
    (hok : create_biencoder_input cfg o samples = .ok p) :
    p.1.is_positive = prefixSums 0 (ctxCounts cfg o 0 samples) := by
  unfold create_biencoder_input at hok
  cases hps : processSamples cfg o 0 emptyBatchState samples with
  | error e => rw [hps] at hok; simp only [exceptBind_err] at hok; cases hok
  | ok q =>
      rw [hps] at hok
      obtain ⟨st, us⟩ := q
      simp only [exceptBind_ok] at hok
      cases hab : assembleBatch st with
      | error e => rw [hab] at hok; simp only [exceptBind_err] at hok; cases hok
      | ok b =>
          rw [hab] at hok
          simp only [exceptBind_ok] at hok
          cases hok
          obtain ⟨hpos, -, -⟩ := assembleBatch_ok_fields st b hab
          obtain ⟨g1, -, -⟩ := processSamples_ok_spec cfg o samples 0 emptyBatchState st us hps
          show b.is_positive = _
          rw [hpos, g1]
          rfl

/-- Witness for C3 at a two-sample fixture whose context counts are 3 and 1,
so the recorded positive indices are [0, 3]. -/
theorem C3_witness :
    create_biencoder_input cfg1 idOracle [sample3a, sample3b] =
      .ok (batchC3, [sample3a, sample3b]) ∧
    batchC3.is_positive = prefixSums 0 (ctxCounts cfg1 idOracle 0 [sample3a, sample3b]) :=
  ⟨rfl,
    C3_positive_index_partial_sums cfg1 idOracle [sample3a, sample3b]
      (batchC3, [sample3a, sample3b]) rfl⟩

theorem updatedSamples_get? (cfg : BatchConfig) (o : RandomOracle) :
    ∀ (samples : List BiEncoderSample) (j i : Nat),
      (updatedSamples cfg o j samples).get? i =
        (samples.get? i).map (updatedSample cfg o (j + i))
  | [], j, i => by simp [updatedSamples]
  | s :: rest, j, 0 => by simp [updatedSamples]
  | s :: rest, j, i + 1 => by
      simp only [updatedSamples, List.get?_cons_succ]
      rw [updatedSamples_get? cfg o rest (j + 1) i]
      have : j + 1 + i = j + (i + 1) := by omega
      rw [this]

/-- C10: with `shuffle=True` the call hands back sample objects whose
negative and hard-negative pools are the in-place-shuffled (permuted)
pools, while the query and the positive pool are untouched. -/
theorem C10_in_place_shuffle (cfg : BatchConfig) (o : RandomOracle)
    (samples : List BiEncoderSample) (p : BiEncoderBatchOut × List BiEncoderSample)
    (hsh : cfg.shuffle = true)
    (hpn : ∀ i l, (o.shuffle_neg i l).Perm l)
    (hph : ∀ i l, (o.shuffle_hard i l).Perm l)
    (hok : create_biencoder_input cfg o samples = .ok p) :
    ∀ i s, samples.get? i = some s →
      p.2.get? i = some (updatedSample cfg o i s) ∧
      (updatedSample cfg o i s).negative_passages = o.shuffle_neg i s.negative_passages ∧
      (updatedSample cfg o i s).hard_negative_passages =
        o.shuffle_hard i s.hard_negative_passages ∧
      (updatedSample cfg o i s).negative_passages.Perm s.negative_passages ∧
      (updatedSample cfg o i s).hard_negative_passages.Perm s.hard_negative_passages ∧
      (updatedSample cfg o i s).query = s.query ∧
      (updatedSample cfg o i s).positive_passages = s.positive_passages := by
  have hus : p.2 = updatedSamples cfg o 0 samples := by
    unfold create_biencoder_input at hok
    cases hps : processSamples cfg o 0 emptyBatchState samples with
    | error e => rw [hps] at hok; simp only [exceptBind_err] at hok; cases hok
    | ok q =>
        rw [hps] at hok
        obtain ⟨st, us⟩ := q
        simp only [exceptBind_ok] at hok
        cases hab : assembleBatch st with
        | error e => rw [hab] at hok; simp only [exceptBind_err] at hok; cases hok
        | ok b =>
            rw [hab] at hok
            simp only [exceptBind_ok] at hok
            cases hok
            exact (processSamples_ok_spec cfg o samples 0 emptyBatchState st us hps).2.2
  intro i s hs
  refine ⟨?_, ?_, ?_, ?_, ?_, rfl, rfl⟩
  · rw [hus, updatedSamples_get? cfg o samples 0 i, hs]
    simp
  · simp [updatedSample, shuffledNegs, hsh]
  · simp [updatedSample, shuffledHards, hsh]
  · simp only [updatedSample, shuffledNegs, hsh, if_true]
    exact hpn i s.negative_passages
  · simp only [updatedSample, shuffledHards, hsh, if_true]
    exact hph i s.hard_negative_passages

/-- Witness for C10 at a fixture whose oracle reverses the pools. -/
theorem C10_witness :
    (cfg10.shuffle = true ∧
      create_biencoder_input cfg10 revOracle [sample10] =
        .ok (batchC10, updatedSamples cfg10 revOracle 0 [sample10])) ∧
    ((updatedSamples cfg10 revOracle 0 [sample10]).get? 0 =
        some (updatedSample cfg10 revOracle 0 sample10) ∧
      (updatedSample cfg10 revOracle 0 sample10).negative_passages =
        revOracle.shuffle_neg 0 sample10.negative_passages ∧
      (updatedSample cfg10 revOracle 0 sample10).hard_negative_passages =
        revOracle.shuffle_hard 0 sample10.hard_negative_passages ∧
      (updatedSample cfg10 revOracle 0 sample10).negative_passages.Perm
        sample10.negative_passages ∧
      (updatedSample cfg10 revOracle 0 sample10).hard_negative_passages.Perm
        sample10.hard_negative_passages ∧
      (updatedSample cfg10 revOracle 0 sample10).query = sample10.query ∧
      (updatedSample cfg10 revOracle 0 sample10).positive_passages =
        sample10.positive_passages) :=
  ⟨⟨rfl, rfl⟩,
    C10_in_place_shuffle cfg10 revOracle [sample10]
      (batchC10, updatedSamples cfg10 revOracle 0 [sample10]) rfl
      (fun _ l => List.reverse_perm l) (fun _ l => List.reverse_perm l) rfl
      0 sample10 rfl⟩

/-- C1: the recorded hard-negative index list does NOT point at the
hard-negative slice when other negatives are present.  With one positive
(row [1]), one other negative (row [2]) and one hard negative (row [3]),
the flattened contexts are [[1],[2],[3]] — the hard negative occupies
position 2 — yet the recorded list is [[1]], the position of the other
negative, because lines 244-245 set the window to
range(current + 1, current + 1 + len(hard)) ignoring the other-negative
slice between the positive and the hard negatives. -/
theorem C1_recorded_hard_negative_indices :
    (create_biencoder_input cfg1 idOracle [sample1]).map
        (fun p => (p.1.hard_negatives, p.1.context_ids, p.1.is_positive)) =
      .ok ([[1]], [[1], [2], [3]], [0]) ∧
    (tensorizeCtx lenTz false (mkPassage "ccc")).token_ids = [3] ∧
    (tensorizeCtx lenTz false (mkPassage "bb")).token_ids = [2] :=
  ⟨rfl, rfl, rfl⟩

/-- C4: for a sample with an empty hard-negative pool and the fallback
enabled, the hard-negative slice is the `num_hard_negatives`-prefix of the
(possibly shuffled) other-negative pool, of length exactly
`min(num_hard_negatives, len(other_negatives))`.  The oracle's shuffles are
assumed to be permutations of their input (which `random.shuffle`
guarantees). -/
theorem C4_hard_negative_fallback (cfg : BatchConfig) (o : RandomOracle) (i : Nat)
    (s : BiEncoderSample)
    (hfb : cfg.hard_neg_fallback = true)
    (hpool : s.hard_negative_passages = [])
    (hph : (o.shuffle_hard i s.hard_negative_passages).Perm s.hard_negative_passages)
    (hpn : (o.shuffle_neg i s.negative_passages).Perm s.negative_passages) :
    sampleHardSlice cfg o i s = (shuffledNegs cfg o i s).take cfg.num_hard_negatives ∧
    (sampleHardSlice cfg o i s).length =
      min cfg.num_hard_negatives s.negative_passages.length := by
  have hsh : shuffledHards cfg o i s = [] := by
    unfold shuffledHards
    split
    · rw [hpool]
      rw [hpool] at hph
      exact hph.eq_nil
    · exact hpool
  have hslice : sampleHardSlice cfg o i s =
      (shuffledNegs cfg o i s).take cfg.num_hard_negatives := by
    unfold sampleHardSlice fallbackHards
    rw [hsh]
    simp [hfb, List.take_take]
  refine ⟨hslice, ?_⟩
  rw [hslice, List.length_take]
  congr 1
  unfold shuffledNegs
  split
  · exact hpn.length_eq
  · rfl

/-- Witness for C4: empty hard pool, three other negatives, cap 2, with the
reversing oracle; the slice is the 2-prefix of the reversed pool and has
length min 2 3 = 2. -/
theorem C4_witness :
    (cfg4.hard_neg_fallback = true ∧ sample4.hard_negative_passages = []) ∧
    sampleHardSlice cfg4 revOracle 0 sample4 =
      (shuffledNegs cfg4 revOracle 0 sample4).take cfg4.num_hard_negatives ∧
    (sampleHardSlice cfg4 revOracle 0 sample4).length =
      min cfg4.num_hard_negatives sample4.negative_passages.length :=
  ⟨⟨rfl, rfl⟩,
    C4_hard_negative_fallback cfg4 revOracle 0 sample4 rfl rfl (by decide) (by decide)⟩

/-!  Lemmas about `List.argmax` and the row argmax of scores. -/

theorem foldl_argAux_congr {α : Type} (r1 r2 : α → α → Prop)
    [DecidableRel r1] [DecidableRel r2] (h : ∀ x y, r1 x y ↔ r2 x y) :
    ∀ (l : List α) (o : Option α),
      l.foldl (List.argAux r1) o = l.foldl (List.argAux r2) o
  | [], _ => rfl
  | x :: xs, o => by
      have harg : List.argAux r1 o x = List.argAux r2 o x := by
        cases o with
        | none => rfl
        | some c =>
            simp only [List.argAux]
            by_cases hc : r1 x c
            · rw [if_pos hc, if_pos ((h x c).mp hc)]
            · rw [if_neg hc, if_neg (fun hc2 => hc ((h x c).mpr hc2))]
      rw [List.foldl_cons, List.foldl_cons, harg, foldl_argAux_congr r1 r2 h xs]

theorem argmax_congr {α β γ : Type} [Preorder β] [Preorder γ]
    [DecidableRel ((· < ·) : β → β → Prop)] [DecidableRel ((· < ·) : γ → γ → Prop)]
    (f : α → β) (g : α → γ) (l : List α) (h : ∀ x y, f x < f y ↔ g x < g y) :
    l.argmax f = l.argmax g := by
  unfold List.argmax
  exact foldl_argAux_congr _ _ (fun x y => h y x) l none

/-- Subtracting the row's log-partition constant does not change the
(first) argmax: `torch.max` over the log-softmax rows picks the same index
as over the raw score rows. -/
theorem rowArgmax_logSoftmax {m : ℕ} (row : Fin m → ℝ) :
    rowArgmax (logSoftmax row) = rowArgmax row := by
  unfold rowArgmax logSoftmax
  exact argmax_congr _ _ _ (fun x y => sub_lt_sub_iff_right _)

theorem argmax_eq_of_unique {k : ℕ} (f : Fin k → ℝ) (m : Fin k)
    (hu : ∀ a : Fin k, a ≠ m → f a < f m) :
    rowArgmax f = some m := by
  unfold rowArgmax
  cases harg : (List.finRange k).argmax f with
  | none =>
      rw [List.argmax_eq_none] at harg
      have := List.mem_finRange m
      rw [harg] at this
      cases this
  | some m2 =>
      by_cases hm2 : m2 = m
      · rw [hm2]
      · have hle : f m ≤ f m2 :=
          List.le_of_mem_argmax (List.mem_finRange m) (by rw [harg]; rfl)
        exact absurd hle (not_le.mpr (hu m2 hm2))

theorem scoresC2_eval : dot_product_scores qC2 cC2 = !![(2 : ℝ), 1, 0; 0, 1, 2] := by
  unfold dot_product_scores qC2 cC2
  ext i j
  fin_cases i <;> fin_cases j <;>
    simp [Matrix.mul_apply, Fin.sum_univ_succ, Matrix.transpose_apply,
      Matrix.cons_val_zero, Matrix.cons_val_one, Matrix.head_cons, Matrix.vecHead,
      Matrix.vecTail, Function.comp]

/-- C2: `BiEncoderNllLoss.calc` returns (i) a loss equal to the mean over
queries of minus the log-softmax of the dot-product score matrix at the
recorded positive index, and (ii) a correct count equal to the number of
queries whose (first) row argmax of the raw score matrix is the recorded
positive; in particular at scores [[2,1,0],[0,1,2]] with positives [0,2]
the count is 2 and the loss is log(e^2 + e + 1) - 2. -/
theorem C2_nll_loss_calc :
    (∀ (n m d e : ℕ) (q : Matrix (Fin n) (Fin d) ℝ) (c : Matrix (Fin m) (Fin d) ℝ)
      (qe : Matrix (Fin n) (Fin e) ℝ) (ce : Matrix (Fin m) (Fin e) ℝ)
      (pos : Fin n → Fin m),
      (BiEncoderNllLoss.calcNll q c qe ce pos none).1 =
        (∑ i, -(dot_product_scores q c i (pos i) -
          Real.log (∑ k, Real.exp (dot_product_scores q c i k)))) / n ∧
      (BiEncoderNllLoss.calcNll q c qe ce pos none).2 =
        (Finset.univ.filter
          (fun i => rowArgmax (dot_product_scores q c i) = some (pos i))).card) ∧
    (BiEncoderNllLoss.calcNll qC2 cC2 qeC2 ceC2 posC2 none).2 = 2 ∧
    (BiEncoderNllLoss.calcNll qC2 cC2 qeC2 ceC2 posC2 none).1 =
      Real.log (Real.exp 2 + Real.exp 1 + 1) - 2 := by
  have hgen : ∀ (n m d e : ℕ) (q : Matrix (Fin n) (Fin d) ℝ) (c : Matrix (Fin m) (Fin d) ℝ)
      (qe : Matrix (Fin n) (Fin e) ℝ) (ce : Matrix (Fin m) (Fin e) ℝ)
      (pos : Fin n → Fin m),
      (BiEncoderNllLoss.calcNll q c qe ce pos none).1 =
        (∑ i, -(dot_product_scores q c i (pos i) -
          Real.log (∑ k, Real.exp (dot_product_scores q c i k)))) / n ∧
      (BiEncoderNllLoss.calcNll q c qe ce pos none).2 =
        (Finset.univ.filter
          (fun i => rowArgmax (dot_product_scores q c i) = some (pos i))).card := by
    intro n m d e q c qe ce pos
    constructor
    · rfl
    · show (Finset.univ.filter
          (fun i => rowArgmax (logSoftmax (dot_product_scores q c i)) = some (pos i))).card = _
      simp only [rowArgmax_logSoftmax]
  refine ⟨hgen, ?_, ?_⟩
  · rw [(hgen 2 3 2 1 qC2 cC2 qeC2 ceC2 posC2).2]
    have h0 : rowArgmax (dot_product_scores qC2 cC2 0) = some (0 : Fin 3) := by
      rw [scoresC2_eval]
      refine argmax_eq_of_unique _ 0 ?_
      intro a ha
      fin_cases a
      · simp at ha
      · norm_num [Matrix.cons_val_zero, Matrix.cons_val_one, Matrix.head_cons]
      · norm_num [Matrix.cons_val_zero, Matrix.cons_val_one, Matrix.head_cons]
    have h1 : rowArgmax (dot_product_scores qC2 cC2 1) = some (2 : Fin 3) := by
      rw [scoresC2_eval]
      refine argmax_eq_of_unique _ 2 ?_
      intro a ha
      fin_cases a
      · norm_num [Matrix.cons_val_zero, Matrix.cons_val_one, Matrix.head_cons]
      · norm_num [Matrix.cons_val_zero, Matrix.cons_val_one, Matrix.head_cons]
      · simp at ha
    have hfil : (Finset.univ.filter
        (fun i => rowArgmax (dot_product_scores qC2 cC2 i) = some (posC2 i))) =
        Finset.univ := by
      refine Finset.filter_true_of_mem ?_
      intro i _
      fin_cases i
      · exact h0
      · exact h1
    rw [hfil]
    simp
  · rw [(hgen 2 3 2 1 qC2 cC2 qeC2 ceC2 posC2).1, scoresC2_eval]
    rw [Fin.sum_univ_two]
    have e0 : (∑ k, Real.exp ((!![(2 : ℝ), 1, 0; 0, 1, 2]) 0 k)) =
        Real.exp 2 + Real.exp 1 + 1 := by
      rw [Fin.sum_univ_three]
      norm_num [Matrix.cons_val_zero, Matrix.cons_val_one, Matrix.head_cons, Real.exp_zero]
    have e1 : (∑ k, Real.exp ((!![(2 : ℝ), 1, 0; 0, 1, 2]) 1 k)) =
        Real.exp 2 + Real.exp 1 + 1 := by
      rw [Fin.sum_univ_three]
      norm_num [Matrix.cons_val_zero, Matrix.cons_val_one, Matrix.head_cons, Real.exp_zero]
      ring
    rw [e0, e1]
    have hv1 : (!![(2 : ℝ), 1, 0; 0, 1, 2]) 0 (posC2 0) = 2 := rfl
    have hv2 : (!![(2 : ℝ), 1, 0; 0, 1, 2]) 1 (posC2 1) = 2 := rfl
    rw [hv1, hv2]
    push_cast
    ring

/-- C6: the entity-augmented score matrix of `BiEncoderEntLoss.get_scores`
is the elementwise sum of the base dot-product score matrix and the
entity dot-product score matrix. -/
theorem C6_entity_augmented_scores (n1 n2 d e : ℕ)
    (q : Matrix (Fin n1) (Fin d) ℝ) (c : Matrix (Fin n2) (Fin d) ℝ)
    (qe : Matrix (Fin n1) (Fin e) ℝ) (ce : Matrix (Fin n2) (Fin e) ℝ)
    (i : Fin n1) (j : Fin n2) :
    BiEncoderEntLoss.get_scores q c qe ce i j =
      (∑ k, q i k * c j k) + (∑ k, qe i k * ce j k) := by
  simp [BiEncoderEntLoss.get_scores, dot_product_scores, Matrix.add_apply,
    Matrix.mul_apply, Matrix.transpose_apply]

/-- C8: `cosine_scores` does NOT produce an `n1 × n2` matrix.  It calls
`F.cosine_similarity(..., dim=1)`, which broadcasts the two row batches
pairwise and returns a one-dimensional tensor.  At q = [[1,0],[0,1]] and
p = [[0,1],[1,0]] the dot-product strategy produces the 2x2 matrix
[[0,1],[1,0]], while `cosine_scores` returns the vector [0,0] — the
claimed cosine matrix would instead hold 1 at the off-diagonal entries. -/
theorem C8_cosine_scores_eval :
    dot_product_scores qC8 pC8 = !![(0 : ℝ), 1; 1, 0] ∧
    cosine_scores qC8 pC8 = (fun _ => 0) ∧
    cosineMatrixSpec qC8 pC8 0 1 = 1 ∧ cosineMatrixSpec qC8 pC8 1 0 = 1 := by
  have hrow : ∀ v : Fin 2 → ℝ, (v 0 = 1 ∧ v 1 = 0) ∨ (v 0 = 0 ∧ v 1 = 1) →
      max (l2norm v) torchCosEps = 1 := by
    intro v hv
    have hsum : (∑ j, v j ^ 2) = 1 := by
      rw [Fin.sum_univ_two]
      rcases hv with ⟨h0, h1⟩ | ⟨h0, h1⟩ <;> rw [h0, h1] <;> norm_num
    unfold l2norm torchCosEps
    rw [hsum, Real.sqrt_one]
    exact max_eq_left (by norm_num)
  have hnorm : ∀ i, max (l2norm (qC8 i)) torchCosEps = 1 ∧
      max (l2norm (pC8 i)) torchCosEps = 1 := by
    intro i
    fin_cases i
    · exact ⟨hrow _ (Or.inl ⟨rfl, rfl⟩), hrow _ (Or.inr ⟨rfl, rfl⟩)⟩
    · exact ⟨hrow _ (Or.inr ⟨rfl, rfl⟩), hrow _ (Or.inl ⟨rfl, rfl⟩)⟩
  refine ⟨?_, ?_, ?_, ?_⟩
  · unfold dot_product_scores qC8 pC8
    ext i j
    fin_cases i <;> fin_cases j <;>
      simp [Matrix.mul_apply, Fin.sum_univ_succ, Matrix.transpose_apply,
        Matrix.cons_val_zero, Matrix.cons_val_one, Matrix.head_cons, Matrix.vecHead,
        Matrix.vecTail, Function.comp]
  · funext i
    unfold cosine_scores cosineSimilarityRow
    have hz : (∑ j, qC8 i j * pC8 i j) = 0 := by
      fin_cases i <;>
        · rw [Fin.sum_univ_two]
          norm_num [qC8, pC8, Matrix.cons_val_zero, Matrix.cons_val_one, Matrix.head_cons]
    rw [hz, zero_div]
  · unfold cosineMatrixSpec cosineSimilarityRow
    rw [Matrix.of_apply, (hnorm 0).1, (hnorm 1).2]
    rw [Fin.sum_univ_two]
    norm_num [qC8, pC8, Matrix.cons_val_zero, Matrix.cons_val_one, Matrix.head_cons]
  · unfold cosineMatrixSpec cosineSimilarityRow
    rw [Matrix.of_apply, (hnorm 1).1, (hnorm 0).2]
    rw [Fin.sum_univ_two]
    norm_num [qC8, pC8, Matrix.cons_val_zero, Matrix.cons_val_one, Matrix.head_cons]

end LukeDpr
